import Mathlib

/-!
Verification of the FloorForge floor-plan editor core (IR schema, validator,
geometry derivation, command/history engine).

Shallow embedding conventions:
* TypeScript objects become Lean structures; all coordinate and dimension
  fields are `Int` (the source stores integer millimetres in JS numbers).
* In-place mutation becomes explicit state passing: a command's `execute`
  and `undo` are functions `Project → Project`.
* Throwing code is embedded with `Option`/`Except`.
* `Math.sqrt` comparisons `sqrt d < c` (resp. `e > sqrt d`) are embedded as
  the equivalent integer comparisons `d < c²` (resp. `e ≥ 0 ∧ e² > d`);
  for the integer inputs at hand both forms agree exactly (the true square
  root of an integer below `c²` is bounded away from `c` by far more than
  one double ulp, so the float comparison in the source decides the same
  predicate).
* The `message` field of validation issues (a display string interpolating
  float-formatted lengths) carries no specified behaviour and is omitted
  from the embedded `ValidationIssue`; codes, severities, entity ids and
  suggested fixes are embedded exactly.
-/

/-! ## IR data model (src/lib/ir/schema.ts) -/

structure Point where
  x : Int
  y : Int
deriving DecidableEq, Repr

structure Wall where
  id : String
  a : Point
  b : Point
  thicknessMm : Int
  heightMm : Int
deriving DecidableEq, Repr

inductive OpeningType where
  | door
  | window
deriving DecidableEq, Repr

structure Opening where
  id : String
  wallId : String
  type : OpeningType
  offsetMm : Int
  widthMm : Int
  heightMm : Int
  sillHeightMm : Int
deriving DecidableEq, Repr

structure Level where
  id : String
  name : String
  walls : List Wall
  openings : List Opening
deriving DecidableEq, Repr

/-- `units` is the literal string "mm" in every well-formed project;
`createdAt`/`updatedAt` are optional ISO timestamps. -/
structure Project where
  id : String
  name : String
  units : String
  levels : List Level
  createdAt : Option String
  updatedAt : Option String
deriving DecidableEq, Repr

/-! ## Generic list helpers modelling JS array operations -/

/-- `findIndex` + in-place field assignment on the found element:
update the first element satisfying `f` (no-op when none matches). -/
def updateFirst (f : α → Bool) (g : α → α) : List α → List α
  | [] => []
  | x :: xs => if f x then g x :: xs else x :: updateFirst f g xs

/-- `findIndex` + `splice(index, 1)`: remove the first element satisfying
`f` (no-op when none matches). -/
def removeFirst (f : α → Bool) : List α → List α
  | [] => []
  | x :: xs => if f x then xs else x :: removeFirst f xs

/-- Apply `g` to the element at index `i` (no-op when out of range);
models mutation through `array[i]` after a bounds-checked access. -/
def modifyIdx (i : Nat) (g : α → α) : List α → List α
  | [] => []
  | x :: xs =>
    match i with
    | 0 => g x :: xs
    | n + 1 => x :: modifyIdx n g xs

/-! ## Validator (src/lib/validator/rules.ts) -/

inductive IssueSeverity where
  | error
  | warning
deriving DecidableEq, Repr

/-- The `suggestedFix` payloads occurring in rules.ts.  `offsetFit d w`
stands for the source's `{offsetMm: wallLength - widthMm}` where
`wallLength = Math.sqrt d`; the payload keeps the exact data `(d, w)`
instead of the irrational float. -/
inductive SuggestedFix where
  | deleteEntity (reason : String)
  | setWidthMm (v : Int)
  | setHeightMm (v : Int)
  | setSillHeightMm (v : Int)
  | offsetFit (distSq : Int) (widthMm : Int)
deriving DecidableEq, Repr

structure ValidationIssue where
  code : String
  severity : IssueSeverity
  entityId : String
  suggestedFix : Option SuggestedFix
deriving DecidableEq, Repr

/-- Squared Euclidean distance; the source computes
`Math.sqrt (dx*dx + dy*dy)` and only ever compares it or repackages it. -/
def distSq (a b : Point) : Int :=
  (b.x - a.x) * (b.x - a.x) + (b.y - a.y) * (b.y - a.y)

/-- `validateWallLength`: hard error below 100mm, soft warning below
500mm.  `length < c` is embedded as `distSq < c*c`. -/
def validateWallLength (wall : Wall) : List ValidationIssue :=
  let d := distSq wall.a wall.b
  if d < 100 * 100 then
    [⟨"WALL_TOO_SHORT", .error, wall.id,
      some (.deleteEntity "Wall too short to be structurally valid")⟩]
  else if d < 500 * 500 then
    [⟨"WALL_UNUSUALLY_SHORT", .warning, wall.id, none⟩]
  else
    []

/-- `validateOpeningFitsWall`: WALL_NOT_FOUND when the `wallId` does not
resolve, OPENING_EXCEEDS_WALL when `offsetMm + widthMm > wallLength`
(embedded as `0 ≤ end ∧ end² > distSq`). -/
def validateOpeningFitsWall (opening : Opening) (walls : List Wall) :
    List ValidationIssue :=
  match walls.find? (fun w => w.id == opening.wallId) with
  | none =>
    [⟨"WALL_NOT_FOUND", .error, opening.id,
      some (.deleteEntity "Wall does not exist")⟩]
  | some wall =>
    let d := distSq wall.a wall.b
    let openingEnd := opening.offsetMm + opening.widthMm
    if 0 ≤ openingEnd ∧ d < openingEnd * openingEnd then
      [⟨"OPENING_EXCEEDS_WALL", .error, opening.id,
        some (.offsetFit d opening.widthMm)⟩]
    else
      []

/-- `validateOpeningDimensions`: door and window dimension rules; note
that every branch of the source returns immediately, so at most one
issue is produced per opening. -/
def validateOpeningDimensions (opening : Opening) : List ValidationIssue :=
  if opening.type = .door then
    if opening.widthMm < 700 then
      [⟨"DOOR_TOO_NARROW", .error, opening.id, some (.setWidthMm 700)⟩]
    else if opening.heightMm < 1800 then
      [⟨"DOOR_TOO_SHORT", .error, opening.id, some (.setHeightMm 1800)⟩]
    else if opening.sillHeightMm ≠ 0 then
      [⟨"DOOR_INVALID_SILL", .error, opening.id, some (.setSillHeightMm 0)⟩]
    else []
  else
    if opening.sillHeightMm < 600 then
      [⟨"WINDOW_SILL_TOO_LOW", .error, opening.id, some (.setSillHeightMm 600)⟩]
    else []

/-- Accumulator for `validateUniqueIds`: the three `Set<string>`s plus the
issues pushed so far. -/
structure UniqueIdsState where
  levelIds : List String
  wallIds : List String
  openingIds : List String
  issues : List ValidationIssue

/-- One iteration of the per-level `forEach` in `validateUniqueIds`. -/
def uniqueIdsStep (st : UniqueIdsState) (level : Level) : UniqueIdsState :=
  let st :=
    if st.levelIds.contains level.id then
      { st with
        issues := st.issues ++ [⟨"DUPLICATE_LEVEL_ID", .error, level.id, none⟩],
        levelIds := st.levelIds ++ [level.id] }
    else
      { st with levelIds := st.levelIds ++ [level.id] }
  let st := level.walls.foldl
    (fun st wall =>
      if st.wallIds.contains wall.id then
        { st with
          issues := st.issues ++ [⟨"DUPLICATE_WALL_ID", .error, wall.id, none⟩],
          wallIds := st.wallIds ++ [wall.id] }
      else
        { st with wallIds := st.wallIds ++ [wall.id] }) st
  level.openings.foldl
    (fun st opening =>
      if st.openingIds.contains opening.id then
        { st with
          issues := st.issues ++
            [⟨"DUPLICATE_OPENING_ID", .error, opening.id, none⟩],
          openingIds := st.openingIds ++ [opening.id] }
      else
        { st with openingIds := st.openingIds ++ [opening.id] }) st

/-- `validateUniqueIds`: three id categories tracked in separate sets. -/
def validateUniqueIds (project : Project) : List ValidationIssue :=
  (project.levels.foldl uniqueIdsStep ⟨[], [], [], []⟩).issues

/-- `validateLevelHasWalls`: soft EMPTY_LEVEL warning. -/
def validateLevelHasWalls (level : Level) : List ValidationIssue :=
  if level.walls.length = 0 then
    [⟨"EMPTY_LEVEL", .warning, level.id, none⟩]
  else
    []

/-- One step of the JS `Map` grouping in `validateOpeningsNoOverlap`:
`(openingsByWall.get(o.wallId) || []).push(o); set(...)` on an
insertion-ordered association list. -/
def groupStep (acc : List (String × List Opening)) (o : Opening) :
    List (String × List Opening) :=
  if acc.any (fun p => p.1 == o.wallId) then
    acc.map (fun p => if p.1 == o.wallId then (p.1, p.2 ++ [o]) else p)
  else
    acc ++ [(o.wallId, [o])]

/-- JS `Map` grouping: insertion-ordered association list keyed by
`wallId`; a repeated key appends to its existing group. -/
def groupByWall (openings : List Opening) : List (String × List Opening) :=
  openings.foldl groupStep []

/-- Stable insertion into an offset-sorted list: the inserted element
(originally earlier) goes before every element of equal offset. -/
def insertByOffset (o : Opening) : List Opening → List Opening
  | [] => [o]
  | x :: xs =>
    if o.offsetMm ≤ x.offsetMm then o :: x :: xs else x :: insertByOffset o xs

/-- `sort((a, b) => a.offsetMm - b.offsetMm)`: JS `Array.prototype.sort`
is specified to be stable, and the stable ascending order is unique, so
it is embedded as a stable insertion sort. -/
def sortByOffset : List Opening → List Opening
  | [] => []
  | x :: xs => insertByOffset x (sortByOffset xs)

/-- The adjacent-pair scan of `validateOpeningsNoOverlap`: for each
`i < length - 1`, flag `current` when `currentEnd > nextStart`. -/
def adjacentOverlapIssues (wallId : String) : List Opening → List ValidationIssue
  | current :: next :: rest =>
    (if current.offsetMm + current.widthMm > next.offsetMm then
      [⟨"OPENINGS_OVERLAP", .error, current.id, none⟩]
    else []) ++ adjacentOverlapIssues wallId (next :: rest)
  | _ => []

/-- `validateOpeningsNoOverlap`: group by wall, sort each group by offset,
scan adjacent pairs. -/
def validateOpeningsNoOverlap (level : Level) : List ValidationIssue :=
  (groupByWall level.openings).flatMap
    (fun g =>
      if g.2.length < 2 then []
      else adjacentOverlapIssues g.1 (sortByOffset g.2))

/-- `validateProject`: all rules, in the source's push order. -/
def validateProject (project : Project) : List ValidationIssue :=
  validateUniqueIds project ++
    project.levels.flatMap
      (fun level =>
        validateLevelHasWalls level ++
          level.walls.flatMap validateWallLength ++
          level.openings.flatMap
            (fun o =>
              validateOpeningFitsWall o level.walls ++
                validateOpeningDimensions o) ++
          validateOpeningsNoOverlap level)

/-- `hasErrors`. -/
def hasErrors (issues : List ValidationIssue) : Bool :=
  issues.any (fun i => i.severity == .error)

/-- `getErrors`. -/
def getErrors (issues : List ValidationIssue) : List ValidationIssue :=
  issues.filter (fun i => i.severity == .error)

/-- `getWarnings`. -/
def getWarnings (issues : List ValidationIssue) : List ValidationIssue :=
  issues.filter (fun i => i.severity == .warning)

/-! ## Commands (src/lib/commands/) -/

/-- `Partial<Wall>`: an arbitrary subset of Wall fields (`none` = key
absent). -/
structure PartialWall where
  id : Option String := none
  a : Option Point := none
  b : Option Point := none
  thicknessMm : Option Int := none
  heightMm : Option Int := none
deriving DecidableEq, Repr

/-- `Partial<Opening>`. -/
structure PartialOpening where
  id : Option String := none
  wallId : Option String := none
  type : Option OpeningType := none
  offsetMm : Option Int := none
  widthMm : Option Int := none
  heightMm : Option Int := none
  sillHeightMm : Option Int := none
deriving DecidableEq, Repr

/-- `Object.assign(wall, partial)`. -/
def applyPartialWall (p : PartialWall) (w : Wall) : Wall :=
  { id := p.id.getD w.id
    a := p.a.getD w.a
    b := p.b.getD w.b
    thicknessMm := p.thicknessMm.getD w.thicknessMm
    heightMm := p.heightMm.getD w.heightMm }

/-- `Object.assign(opening, partial)`. -/
def applyPartialOpening (p : PartialOpening) (o : Opening) : Opening :=
  { id := p.id.getD o.id
    wallId := p.wallId.getD o.wallId
    type := p.type.getD o.type
    offsetMm := p.offsetMm.getD o.offsetMm
    widthMm := p.widthMm.getD o.widthMm
    heightMm := p.heightMm.getD o.heightMm
    sillHeightMm := p.sillHeightMm.getD o.sillHeightMm }

/-- State captured by a constructed `UpdateWallCommand` (the mutable
`project` reference becomes an explicit argument of execute/undo). -/
structure UpdateWallCommand where
  wallId : String
  newProperties : PartialWall
  levelIndex : Nat
  oldProperties : PartialWall
deriving DecidableEq, Repr

/-- `new UpdateWallCommand(...)`: `none` models the constructor throw when
the wall is not found.  The constructor snapshots only the `a`, `b` and
`thicknessMm` keys of `newProperties` (NOT `heightMm` or `id`). -/
def UpdateWallCommand.mk? (wallId : String) (newProperties : PartialWall)
    (project : Project) (levelIndex : Nat) : Option UpdateWallCommand :=
  (project.levels.get? levelIndex).bind fun level =>
    (level.walls.find? (fun w => w.id == wallId)).map fun wall =>
      { wallId := wallId
        newProperties := newProperties
        levelIndex := levelIndex
        oldProperties :=
          { a := if newProperties.a.isSome then some wall.a else none
            b := if newProperties.b.isSome then some wall.b else none
            thicknessMm :=
              if newProperties.thicknessMm.isSome then some wall.thicknessMm
              else none } }

/-- `UpdateWallCommand.execute`: silent no-op when the wall (or level) has
disappeared. -/
def UpdateWallCommand.execute (c : UpdateWallCommand) (p : Project) : Project :=
  { p with
    levels := modifyIdx c.levelIndex
      (fun level =>
        { level with
          walls := updateFirst (fun w => w.id == c.wallId)
            (applyPartialWall c.newProperties) level.walls })
      p.levels }

/-- `UpdateWallCommand.undo`: re-assigns the snapshotted subset. -/
def UpdateWallCommand.undo (c : UpdateWallCommand) (p : Project) : Project :=
  { p with
    levels := modifyIdx c.levelIndex
      (fun level =>
        { level with
          walls := updateFirst (fun w => w.id == c.wallId)
            (applyPartialWall c.oldProperties) level.walls })
      p.levels }

/-- State captured by a constructed `UpdateOpeningCommand`. -/
structure UpdateOpeningCommand where
  openingId : String
  newProperties : PartialOpening
  levelIndex : Nat
  oldProperties : PartialOpening
deriving DecidableEq, Repr

/-- `new UpdateOpeningCommand(...)`: snapshots only the `widthMm` and
`type` keys of `newProperties`. -/
def UpdateOpeningCommand.mk? (openingId : String)
    (newProperties : PartialOpening) (project : Project) (levelIndex : Nat) :
    Option UpdateOpeningCommand :=
  (project.levels.get? levelIndex).bind fun level =>
    (level.openings.find? (fun o => o.id == openingId)).map fun opening =>
      { openingId := openingId
        newProperties := newProperties
        levelIndex := levelIndex
        oldProperties :=
          { widthMm :=
              if newProperties.widthMm.isSome then some opening.widthMm
              else none
            type :=
              if newProperties.type.isSome then some opening.type
              else none } }

/-- `UpdateOpeningCommand.execute`. -/
def UpdateOpeningCommand.execute (c : UpdateOpeningCommand) (p : Project) :
    Project :=
  { p with
    levels := modifyIdx c.levelIndex
      (fun level =>
        { level with
          openings := updateFirst (fun o => o.id == c.openingId)
            (applyPartialOpening c.newProperties) level.openings })
      p.levels }

/-- `UpdateOpeningCommand.undo`. -/
def UpdateOpeningCommand.undo (c : UpdateOpeningCommand) (p : Project) :
    Project :=
  { p with
    levels := modifyIdx c.levelIndex
      (fun level =>
        { level with
          openings := updateFirst (fun o => o.id == c.openingId)
            (applyPartialOpening c.oldProperties) level.openings })
      p.levels }

/-- State captured by a constructed `MoveOpeningCommand`. -/
structure MoveOpeningCommand where
  openingId : String
  newOffset : Int
  levelIndex : Nat
  oldOffset : Int
deriving DecidableEq, Repr

/-- `new MoveOpeningCommand(...)`: stores the old offset, throws
(`none`) when the opening is not found. -/
def MoveOpeningCommand.mk? (openingId : String) (newOffset : Int)
    (project : Project) (levelIndex : Nat) : Option MoveOpeningCommand :=
  (project.levels.get? levelIndex).bind fun level =>
    (level.openings.find? (fun o => o.id == openingId)).map fun opening =>
      { openingId := openingId
        newOffset := newOffset
        levelIndex := levelIndex
        oldOffset := opening.offsetMm }

/-- `MoveOpeningCommand.execute`: silent no-op when the opening has
disappeared. -/
def MoveOpeningCommand.execute (c : MoveOpeningCommand) (p : Project) :
    Project :=
  { p with
    levels := modifyIdx c.levelIndex
      (fun level =>
        { level with
          openings := updateFirst (fun o => o.id == c.openingId)
            (fun o => { o with offsetMm := c.newOffset }) level.openings })
      p.levels }

/-- `MoveOpeningCommand.undo`. -/
def MoveOpeningCommand.undo (c : MoveOpeningCommand) (p : Project) : Project :=
  { p with
    levels := modifyIdx c.levelIndex
      (fun level =>
        { level with
          openings := updateFirst (fun o => o.id == c.openingId)
            (fun o => { o with offsetMm := c.oldOffset }) level.openings })
      p.levels }

/-- State captured by a constructed `AddOpeningCommand` (never throws). -/
structure AddOpeningCommand where
  opening : Opening
  levelIndex : Nat
deriving DecidableEq, Repr

/-- `AddOpeningCommand.execute`: `openings.push(opening)`. -/
def AddOpeningCommand.execute (c : AddOpeningCommand) (p : Project) : Project :=
  { p with
    levels := modifyIdx c.levelIndex
      (fun level => { level with openings := level.openings ++ [c.opening] })
      p.levels }

/-- `AddOpeningCommand.undo`: remove the first opening whose id matches. -/
def AddOpeningCommand.undo (c : AddOpeningCommand) (p : Project) : Project :=
  { p with
    levels := modifyIdx c.levelIndex
      (fun level =>
        { level with
          openings := removeFirst (fun o => o.id == c.opening.id)
            level.openings })
      p.levels }

/-- State captured by a constructed `AddWallCommand`. -/
structure AddWallCommand where
  wall : Wall
  levelIndex : Nat
deriving DecidableEq, Repr

/-- `AddWallCommand.execute`: `walls.push(wall)`. -/
def AddWallCommand.execute (c : AddWallCommand) (p : Project) : Project :=
  { p with
    levels := modifyIdx c.levelIndex
      (fun level => { level with walls := level.walls ++ [c.wall] })
      p.levels }

/-- `AddWallCommand.undo`. -/
def AddWallCommand.undo (c : AddWallCommand) (p : Project) : Project :=
  { p with
    levels := modifyIdx c.levelIndex
      (fun level =>
        { level with
          walls := removeFirst (fun w => w.id == c.wall.id) level.walls })
      p.levels }

/-- State captured by a constructed `RemoveWallCommand`: the removed wall
object and its original array index. -/
structure RemoveWallCommand where
  wall : Wall
  levelIndex : Nat
  originalIndex : Nat
deriving DecidableEq, Repr

/-- `new RemoveWallCommand(...)`: looks up and stores the wall and its
index; `none` models the throw when the id is not found. -/
def RemoveWallCommand.mk? (wallId : String) (project : Project)
    (levelIndex : Nat) : Option RemoveWallCommand :=
  (project.levels.get? levelIndex).bind fun level =>
    (level.walls.findIdx? (fun w => w.id == wallId)).bind fun index =>
      (level.walls.get? index).map fun wall =>
        { wall := wall, levelIndex := levelIndex, originalIndex := index }

/-- `RemoveWallCommand.execute`: splice out the first wall whose id
matches the stored wall's id; the `openings` array is not touched. -/
def RemoveWallCommand.execute (c : RemoveWallCommand) (p : Project) : Project :=
  { p with
    levels := modifyIdx c.levelIndex
      (fun level =>
        { level with
          walls := removeFirst (fun w => w.id == c.wall.id) level.walls })
      p.levels }

/-- `RemoveWallCommand.undo`: re-insert at the original index when still
in range, else push. -/
def RemoveWallCommand.undo (c : RemoveWallCommand) (p : Project) : Project :=
  { p with
    levels := modifyIdx c.levelIndex
      (fun level =>
        { level with
          walls :=
            if c.originalIndex ≤ level.walls.length then
              level.walls.insertIdx c.originalIndex c.wall
            else
              level.walls ++ [c.wall] })
      p.levels }

/-! ## Command history (src/lib/commands/CommandHistory.ts)

A `Command` is embedded as its pair of state transformers.  Every
concrete command class extends `BaseCommand`, whose default `redo()`
delegates to `execute()`, so redo is modelled as applying `exec`. -/

structure Cmd where
  exec : Project → Project
  undo : Project → Project

/-- Benign default used for the (invariant-unreachable) out-of-range
array read `history[currentIndex]`. -/
def idCmd : Cmd := ⟨id, id⟩

def UpdateWallCommand.toCmd (c : UpdateWallCommand) : Cmd :=
  ⟨c.execute, c.undo⟩

def UpdateOpeningCommand.toCmd (c : UpdateOpeningCommand) : Cmd :=
  ⟨c.execute, c.undo⟩

def MoveOpeningCommand.toCmd (c : MoveOpeningCommand) : Cmd :=
  ⟨c.execute, c.undo⟩

def AddOpeningCommand.toCmd (c : AddOpeningCommand) : Cmd :=
  ⟨c.execute, c.undo⟩

def AddWallCommand.toCmd (c : AddWallCommand) : Cmd :=
  ⟨c.execute, c.undo⟩

def RemoveWallCommand.toCmd (c : RemoveWallCommand) : Cmd :=
  ⟨c.execute, c.undo⟩

/-- The mutable fields of a `CommandHistory` instance.  `currentIndex`
is an `Int` because the source uses the sentinel value `-1`. -/
structure CommandHistory where
  history : List Cmd
  currentIndex : Int
  maxSize : Nat

/-- `new CommandHistory(maxSize)` (default 50). -/
def CommandHistory.fresh (maxSize : Nat := 50) : CommandHistory :=
  { history := [], currentIndex := -1, maxSize := maxSize }

/-- `CommandHistory.execute(command)`: run the command, truncate the redo
branch, append, and either evict the oldest entry (`shift`) or advance
the cursor. -/
def CommandHistory.execute (c : Cmd) (s : CommandHistory × Project) :
    CommandHistory × Project :=
  let h := s.1
  let p := c.exec s.2
  let hist := h.history.take (h.currentIndex + 1).toNat ++ [c]
  if h.maxSize < hist.length then
    ({ h with history := hist.drop 1 }, p)
  else
    ({ h with history := hist, currentIndex := h.currentIndex + 1 }, p)

/-- `CommandHistory.undo()`: returns `false` (state unchanged) when
nothing can be undone. -/
def CommandHistory.undoStep (s : CommandHistory × Project) :
    (CommandHistory × Project) × Bool :=
  let h := s.1
  if h.currentIndex < 0 then (s, false)
  else
    let c := h.history.getD h.currentIndex.toNat idCmd
    ((({ h with currentIndex := h.currentIndex - 1 }), c.undo s.2), true)

/-- `CommandHistory.redo()`: `redo` delegates to `execute` per
`BaseCommand`. -/
def CommandHistory.redoStep (s : CommandHistory × Project) :
    (CommandHistory × Project) × Bool :=
  let h := s.1
  if (h.history.length : Int) - 1 ≤ h.currentIndex then (s, false)
  else
    let i := h.currentIndex + 1
    let c := h.history.getD i.toNat idCmd
    ((({ h with currentIndex := i }), c.exec s.2), true)

/-- `CommandHistory.clear()`. -/
def CommandHistory.clearHistory (s : CommandHistory × Project) :
    CommandHistory × Project :=
  ({ s.1 with history := [], currentIndex := -1 }, s.2)

/-- Execute a list of commands in order. -/
def execAll (cs : List Cmd) (s : CommandHistory × Project) :
    CommandHistory × Project :=
  cs.foldl (fun s c => CommandHistory.execute c s) s

/-- Call `undo()` n times (results of the boolean are discarded, exactly
as a caller pressing Ctrl+Z n times would). -/
def undoN : Nat → CommandHistory × Project → CommandHistory × Project
  | 0, s => s
  | n + 1, s => undoN n (CommandHistory.undoStep s).1

/-- Call `redo()` n times. -/
def redoN : Nat → CommandHistory × Project → CommandHistory × Project
  | 0, s => s
  | n + 1, s => redoN n (CommandHistory.redoStep s).1

/-- One public mutating call on a `CommandHistory`. -/
inductive HistOp where
  | exec (c : Cmd)
  | undo
  | redo
  | clear

def applyHistOp (s : CommandHistory × Project) : HistOp → CommandHistory × Project
  | .exec c => CommandHistory.execute c s
  | .undo => (CommandHistory.undoStep s).1
  | .redo => (CommandHistory.redoStep s).1
  | .clear => CommandHistory.clearHistory s

def runHistOps (ops : List HistOp) (s : CommandHistory × Project) :
    CommandHistory × Project :=
  ops.foldl applyHistOp s

/-! ## Geometry derivation (src/lib/geometry/)

JavaScript float arithmetic is idealised over `ℝ`; the zero-length
guards (`if (length === 0)`) become real-equality tests, so these
definitions are noncomputable but exactly mirror the source formulas. -/

noncomputable section

structure RPoint where
  x : ℝ
  y : ℝ

/-- Integer-mm IR point, viewed as a float point. -/
def Point.toR (p : Point) : RPoint := ⟨(p.x : ℝ), (p.y : ℝ)⟩

/-- `getPerpendicular` (identical in wallGeometry.ts and
openingGeometry.ts): unit perpendicular scaled by `distance`, or `{0,0}`
for a zero-length direction. -/
def getPerpendicular (a b : RPoint) (distance : ℝ) : RPoint :=
  let dx := b.x - a.x
  let dy := b.y - a.y
  let length := Real.sqrt (dx * dx + dy * dy)
  if length = 0 then ⟨0, 0⟩
  else ⟨-dy / length * distance, dx / length * distance⟩

structure WallGeometry where
  wallId : String
  outline : List RPoint
  centerlineStart : RPoint
  centerlineEnd : RPoint
  thickness : ℝ

/-- `deriveWallGeometry`. -/
def deriveWallGeometry (wall : Wall) : WallGeometry :=
  let halfThickness := (wall.thicknessMm : ℝ) / 2
  let offset := getPerpendicular wall.a.toR wall.b.toR halfThickness
  let topLeft : RPoint := ⟨wall.a.toR.x + offset.x, wall.a.toR.y + offset.y⟩
  let topRight : RPoint := ⟨wall.b.toR.x + offset.x, wall.b.toR.y + offset.y⟩
  let bottomRight : RPoint := ⟨wall.b.toR.x - offset.x, wall.b.toR.y - offset.y⟩
  let bottomLeft : RPoint := ⟨wall.a.toR.x - offset.x, wall.a.toR.y - offset.y⟩
  { wallId := wall.id
    outline := [topLeft, topRight, bottomRight, bottomLeft]
    centerlineStart := wall.a.toR
    centerlineEnd := wall.b.toR
    thickness := (wall.thicknessMm : ℝ) }

/-- `deriveWallsGeometry`. -/
def deriveWallsGeometry (walls : List Wall) : List WallGeometry :=
  walls.map deriveWallGeometry

/-- `getPointAlongWall`: lerp along the wall at arc-length `distanceMm`,
returning a copy of `wall.a` for a zero-length wall. -/
def getPointAlongWall (wall : Wall) (distanceMm : ℝ) : RPoint :=
  let dx := (wall.b.x : ℝ) - (wall.a.x : ℝ)
  let dy := (wall.b.y : ℝ) - (wall.a.y : ℝ)
  let length := Real.sqrt (dx * dx + dy * dy)
  if length = 0 then wall.a.toR
  else
    let t := distanceMm / length
    ⟨(wall.a.x : ℝ) + dx * t, (wall.a.y : ℝ) + dy * t⟩

structure OpeningGeometry where
  openingId : String
  wallId : String
  type : OpeningType
  topLeft : RPoint
  topRight : RPoint
  bottomRight : RPoint
  bottomLeft : RPoint
  width : ℝ
  position : RPoint

/-- `deriveOpeningGeometry`: the opening rectangle is cut with the parent
wall's perpendicular. -/
def deriveOpeningGeometry (opening : Opening) (wall : Wall) : OpeningGeometry :=
  let halfThickness := (wall.thicknessMm : ℝ) / 2
  let centerOffset := (opening.offsetMm : ℝ) + (opening.widthMm : ℝ) / 2
  let centerPoint := getPointAlongWall wall centerOffset
  let startPoint := getPointAlongWall wall (opening.offsetMm : ℝ)
  let endPoint :=
    getPointAlongWall wall ((opening.offsetMm : ℝ) + (opening.widthMm : ℝ))
  let perpOffset := getPerpendicular wall.a.toR wall.b.toR halfThickness
  { openingId := opening.id
    wallId := opening.wallId
    type := opening.type
    topLeft := ⟨startPoint.x + perpOffset.x, startPoint.y + perpOffset.y⟩
    topRight := ⟨endPoint.x + perpOffset.x, endPoint.y + perpOffset.y⟩
    bottomRight := ⟨endPoint.x - perpOffset.x, endPoint.y - perpOffset.y⟩
    bottomLeft := ⟨startPoint.x - perpOffset.x, startPoint.y - perpOffset.y⟩
    width := (opening.widthMm : ℝ)
    position := centerPoint }

/-- `deriveOpeningsGeometry`: maps over the openings, throwing
(`Except.error`) at the first opening whose `wallId` is unresolved. -/
def deriveOpeningsGeometry (openings : List Opening) (walls : List Wall) :
    Except String (List OpeningGeometry) :=
  match openings with
  | [] => .ok []
  | o :: rest =>
    match walls.find? (fun w => w.id == o.wallId) with
    | none =>
      .error ("Opening " ++ o.id ++ " references non-existent wall " ++ o.wallId)
    | some wall =>
      (deriveOpeningsGeometry rest walls).map
        (fun gs => deriveOpeningGeometry o wall :: gs)

end

/-! ## IR schema parsing (src/lib/ir/schema.ts, Zod)

`parseProject(JSON.stringify(p))` is embedded as the Zod-style parser
below applied to the JSON tree of `p`.  JSON numbers are rationals
(`Json.num`), so `z.number().int()` is the denominator-1 check; object
keys are looked up by name (`JSON.parse` preserves all keys);
`JSON.stringify` omits fields holding `undefined`
(`createdAt`/`updatedAt` when absent).  Parsing is modelled as
`Option` (`none` = the throwing `ZodError` path); the error list's
contents are not needed by any claim. -/

inductive Json where
  | null
  | bool (b : Bool)
  | num (q : Rat)
  | str (s : String)
  | arr (elems : List Json)
  | obj (fields : List (String × Json))

/-- Key lookup in a parsed JSON object. -/
def jGet (fields : List (String × Json)) (key : String) : Option Json :=
  (fields.find? (fun f => f.1 == key)).map (fun f => f.2)

/-- `JSON.stringify` of a Point. -/
def Point.toJson (p : Point) : Json :=
  .obj [("x", .num (p.x : Rat)), ("y", .num (p.y : Rat))]

/-- `JSON.stringify` of a Wall. -/
def Wall.toJson (w : Wall) : Json :=
  .obj
    [("id", .str w.id), ("a", w.a.toJson), ("b", w.b.toJson),
     ("thicknessMm", .num (w.thicknessMm : Rat)),
     ("heightMm", .num (w.heightMm : Rat))]

def OpeningType.toStr : OpeningType → String
  | .door => "door"
  | .window => "window"

/-- `JSON.stringify` of an Opening. -/
def Opening.toJson (o : Opening) : Json :=
  .obj
    [("id", .str o.id), ("wallId", .str o.wallId),
     ("type", .str o.type.toStr),
     ("offsetMm", .num (o.offsetMm : Rat)),
     ("widthMm", .num (o.widthMm : Rat)),
     ("heightMm", .num (o.heightMm : Rat)),
     ("sillHeightMm", .num (o.sillHeightMm : Rat))]

/-- `JSON.stringify` of a Level. -/
def Level.toJson (l : Level) : Json :=
  .obj
    [("id", .str l.id), ("name", .str l.name),
     ("walls", .arr (l.walls.map Wall.toJson)),
     ("openings", .arr (l.openings.map Opening.toJson))]

/-- `JSON.stringify` of a Project; optional timestamps are omitted when
absent. -/
def Project.toJson (p : Project) : Json :=
  .obj
    ([("id", .str p.id), ("name", .str p.name), ("units", .str p.units),
      ("levels", .arr (p.levels.map Level.toJson))] ++
      (match p.createdAt with
       | some s => [("createdAt", .str s)]
       | none => []) ++
      (match p.updatedAt with
       | some s => [("updatedAt", .str s)]
       | none => []))

/-- `z.string().regex(/^<pre>[0-9]+$/)`. -/
def idPattern (pre : Char) (s : String) : Bool :=
  match s.data with
  | [] => false
  | c :: rest => c == pre && !rest.isEmpty && rest.all Char.isDigit

/-- Digits then a final Z, for the fractional-seconds part of Zod's
datetime regex. -/
def digitsThenZ : List Char → Bool
  | ['Z'] => true
  | c :: rest => c.isDigit && digitsThenZ rest
  | [] => false

/-- Tail of the datetime regex after the seconds: `Z` or `.\d+Z`. -/
def datetimeTail : List Char → Bool
  | ['Z'] => true
  | '.' :: c :: rest => c.isDigit && digitsThenZ (c :: rest) && true
  | _ => false

/-- `z.string().datetime()`:
`^\d{4}-\d{2}-\d{2}T\d{2}:\d{2}:\d{2}(\.\d+)?Z$`. -/
def isDatetime (s : String) : Bool :=
  match s.data with
  | y1 :: y2 :: y3 :: y4 :: '-' :: m1 :: m2 :: '-' :: d1 :: d2 :: 'T' ::
      h1 :: h2 :: ':' :: n1 :: n2 :: ':' :: s1 :: s2 :: rest =>
    [y1, y2, y3, y4, m1, m2, d1, d2, h1, h2, n1, n2, s1, s2].all
        Char.isDigit &&
      datetimeTail rest
  | _ => false

/-- `z.number().int()`: an integral JSON number. -/
def parseJInt : Json → Option Int
  | .num q => if q.den == 1 then some q.num else none
  | _ => none

/-- `z.number().int().min(lo).max(hi)`. -/
def parseJIntRange (lo hi : Int) (j : Json) : Option Int :=
  (parseJInt j).bind fun n => if lo ≤ n ∧ n ≤ hi then some n else none

/-- `z.number().int().min(lo)`. -/
def parseJIntMin (lo : Int) (j : Json) : Option Int :=
  (parseJInt j).bind fun n => if lo ≤ n then some n else none

/-- An id string matching its category's pattern. -/
def parseJId (pre : Char) : Json → Option String
  | .str s => if idPattern pre s then some s else none
  | _ => none

/-- `PointSchema`. -/
def parsePoint : Json → Option Point
  | .obj fs => do
    let x ← jGet fs "x" >>= parseJInt
    let y ← jGet fs "y" >>= parseJInt
    pure { x := x, y := y }
  | _ => none

/-- `z.array(schema)` elementwise. -/
def parseJArr (f : Json → Option α) : List Json → Option (List α)
  | [] => some []
  | j :: rest => do
    let x ← f j
    let xs ← parseJArr f rest
    pure (x :: xs)

/-- `WallSchema` (heightMm defaults to 2700 when the key is absent). -/
def parseWall : Json → Option Wall
  | .obj fs => do
    let id ← jGet fs "id" >>= parseJId 'w'
    let a ← jGet fs "a" >>= parsePoint
    let b ← jGet fs "b" >>= parsePoint
    let t ← jGet fs "thicknessMm" >>= parseJIntRange 100 500
    let h ←
      match jGet fs "heightMm" with
      | none => some 2700
      | some v => parseJIntRange 1800 4000 v
    pure { id := id, a := a, b := b, thicknessMm := t, heightMm := h }
  | _ => none

/-- `OpeningTypeSchema`. -/
def parseOpeningType : Json → Option OpeningType
  | .str "door" => some .door
  | .str "window" => some .window
  | _ => none

/-- `OpeningSchema` (sillHeightMm defaults to 0 when absent). -/
def parseOpening : Json → Option Opening
  | .obj fs => do
    let id ← jGet fs "id" >>= parseJId 'o'
    let wallId ←
      match jGet fs "wallId" with
      | some (.str s) => some s
      | _ => none
    let ty ← jGet fs "type" >>= parseOpeningType
    let off ← jGet fs "offsetMm" >>= parseJIntMin 0
    let w ← jGet fs "widthMm" >>= parseJIntRange 600 3000
    let h ← jGet fs "heightMm" >>= parseJIntRange 600 2400
    let sill ←
      match jGet fs "sillHeightMm" with
      | none => some 0
      | some v => parseJIntRange 0 1500 v
    pure
      { id := id, wallId := wallId, type := ty, offsetMm := off,
        widthMm := w, heightMm := h, sillHeightMm := sill }
  | _ => none

/-- `LevelSchema` (name defaults to "Ground Floor" when absent, else
must be nonempty). -/
def parseLevel : Json → Option Level
  | .obj fs => do
    let id ← jGet fs "id" >>= parseJId 'l'
    let name ←
      match jGet fs "name" with
      | none => some "Ground Floor"
      | some (.str s) => if s.length ≥ 1 then some s else none
      | some _ => none
    let walls ←
      match jGet fs "walls" with
      | some (.arr js) => parseJArr parseWall js
      | _ => none
    let openings ←
      match jGet fs "openings" with
      | some (.arr js) => parseJArr parseOpening js
      | _ => none
    pure { id := id, name := name, walls := walls, openings := openings }
  | _ => none

/-- An optional `z.string().datetime()` field. -/
def parseTimestamp : Option Json → Option (Option String)
  | none => some none
  | some (.str s) => if isDatetime s then some (some s) else none
  | some _ => none

/-- `ProjectSchema.parse` = `validateProjectSchema` = the spec's
`parseProject`. -/
def parseProject : Json → Option Project
  | .obj fs => do
    let id ← jGet fs "id" >>= parseJId 'p'
    let name ←
      match jGet fs "name" with
      | some (.str s) => if s.length ≥ 1 then some s else none
      | _ => none
    let units ←
      match jGet fs "units" with
      | some (.str "mm") => some "mm"
      | _ => none
    let levels ←
      match jGet fs "levels" with
      | some (.arr js) => do
        let ls ← parseJArr parseLevel js
        if ls.length ≥ 1 then some ls else none
      | _ => none
    let createdAt ← parseTimestamp (jGet fs "createdAt")
    let updatedAt ← parseTimestamp (jGet fs "updatedAt")
    pure
      { id := id, name := name, units := units, levels := levels,
        createdAt := createdAt, updatedAt := updatedAt }
  | _ => none

/-! ## Schema-conformance predicate (what `ProjectSchema` accepts)

Used to state the corrected round-trip property: `validateProject`
checks none of these shape constraints. -/

def wallOk (w : Wall) : Prop :=
  idPattern 'w' w.id = true ∧ 100 ≤ w.thicknessMm ∧ w.thicknessMm ≤ 500 ∧
    1800 ≤ w.heightMm ∧ w.heightMm ≤ 4000

def openingOk (o : Opening) : Prop :=
  idPattern 'o' o.id = true ∧ 0 ≤ o.offsetMm ∧ 600 ≤ o.widthMm ∧
    o.widthMm ≤ 3000 ∧ 600 ≤ o.heightMm ∧ o.heightMm ≤ 2400 ∧
    0 ≤ o.sillHeightMm ∧ o.sillHeightMm ≤ 1500

def levelOk (l : Level) : Prop :=
  idPattern 'l' l.id = true ∧ 1 ≤ l.name.length ∧
    (∀ w ∈ l.walls, wallOk w) ∧ (∀ o ∈ l.openings, openingOk o)

def timestampOk : Option String → Prop
  | none => True
  | some s => isDatetime s = true

def projectOk (p : Project) : Prop :=
  idPattern 'p' p.id = true ∧ 1 ≤ p.name.length ∧ p.units = "mm" ∧
    1 ≤ p.levels.length ∧ (∀ l ∈ p.levels, levelOk l) ∧
    timestampOk p.createdAt ∧ timestampOk p.updatedAt

/-! ## Spec-side reformulations used to state claims -/

/-- The four dimension rules of §3, in the order the spec lists them. -/
inductive DimRule where
  | doorNarrow
  | doorShort
  | doorSill
  | windowSillLow
deriving DecidableEq, Repr

/-- Whether an opening violates a given dimension rule. -/
def ruleViolated (o : Opening) : DimRule → Bool
  | .doorNarrow => o.type == .door && o.widthMm < 700
  | .doorShort => o.type == .door && o.heightMm < 1800
  | .doorSill => o.type == .door && o.sillHeightMm != 0
  | .windowSillLow => o.type == .window && o.sillHeightMm < 600

/-- The rules an opening violates, in rule order. -/
def violatedRules (o : Opening) : List DimRule :=
  [DimRule.doorNarrow, .doorShort, .doorSill, .windowSillLow].filter
    (ruleViolated o)

/-- The issue the claim assigns to each violated rule. -/
def issueForRule (o : Opening) : DimRule → ValidationIssue
  | .doorNarrow => ⟨"DOOR_TOO_NARROW", .error, o.id, some (.setWidthMm 700)⟩
  | .doorShort => ⟨"DOOR_TOO_SHORT", .error, o.id, some (.setHeightMm 1800)⟩
  | .doorSill => ⟨"DOOR_INVALID_SILL", .error, o.id, some (.setSillHeightMm 0)⟩
  | .windowSillLow =>
    ⟨"WINDOW_SILL_TOO_LOW", .error, o.id, some (.setSillHeightMm 600)⟩

/-- One step of collecting distinct wallIds in first-occurrence order. -/
def firstOccStep (acc : List String) (o : Opening) : List String :=
  if acc.contains o.wallId then acc else acc ++ [o.wallId]

/-- The distinct wallIds of an opening list, in first-occurrence order
(the iteration order of the JS `Map` built by grouping). -/
def firstOccurrenceWallIds (openings : List Opening) : List String :=
  openings.foldl firstOccStep []

/-- The claim's description of the overlap validator: per wall, sort that
wall's openings by offset ascending and flag each adjacent pair with
`currentEnd > nextStart`. -/
def overlapIssuesSpec (level : Level) : List ValidationIssue :=
  (firstOccurrenceWallIds level.openings).flatMap
    (fun wid =>
      adjacentOverlapIssues wid
        (sortByOffset (level.openings.filter (fun o => o.wallId == wid))))

/-- State of the project after the first `i` of the commands `cs` have
been executed, starting from `p0`. -/
def execTrace (cs : List Cmd) (p0 : Project) (i : Nat) : Project :=
  (cs.take i).foldl (fun p c => c.exec p) p0

/-- The invariant claimed for `CommandHistory`: bounded history and a
cursor between -1 and the last index. -/
def histInv (h : CommandHistory) : Prop :=
  h.history.length ≤ h.maxSize ∧ -1 ≤ h.currentIndex ∧
    h.currentIndex < (h.history.length : Int)

/-! ## Concrete fixtures for witnesses and counterexamples -/

def sampleWall : Wall :=
  { id := "w1", a := ⟨0, 0⟩, b := ⟨5000, 0⟩, thicknessMm := 200,
    heightMm := 2700 }

def sampleDoor : Opening :=
  { id := "o1", wallId := "w1", type := .door, offsetMm := 1000,
    widthMm := 900, heightMm := 2100, sillHeightMm := 0 }

def sampleLevel : Level :=
  { id := "l1", name := "Ground Floor", walls := [sampleWall],
    openings := [sampleDoor] }

def sampleProject : Project :=
  { id := "p1", name := "Simple Room", units := "mm",
    levels := [sampleLevel], createdAt := none, updatedAt := none }

/-- Same valid contents but a project id that matches no `p<digits>`
pattern; `validateProject` does not look at ids' shapes. -/
def badIdProject : Project :=
  { sampleProject with id := "x1" }

/-- A second opening whose id collides with `sampleDoor`'s. -/
def dupDoor : Opening :=
  { id := "o1", wallId := "w1", type := .door, offsetMm := 2500,
    widthMm := 1200, heightMm := 2100, sillHeightMm := 0 }

/-- A door violating both the width rule and the height rule. -/
def badDoor : Opening :=
  { id := "o9", wallId := "w1", type := .door, offsetMm := 0,
    widthMm := 600, heightMm := 1500, sillHeightMm := 0 }

/-- Openings for the overlap boundary scenario of the claim. -/
def overlapA : Opening :=
  { id := "oa", wallId := "w1", type := .window, offsetMm := 500,
    widthMm := 900, heightMm := 1200, sillHeightMm := 900 }

def overlapB : Opening :=
  { id := "ob", wallId := "w1", type := .window, offsetMm := 1400,
    widthMm := 1200, heightMm := 1200, sillHeightMm := 900 }

def overlapBshifted : Opening :=
  { overlapB with offsetMm := 1399 }

def touchingLevel : Level :=
  { id := "l1", name := "Ground Floor", walls := [sampleWall],
    openings := [overlapA, overlapB] }

def overlappingLevel : Level :=
  { touchingLevel with openings := [overlapA, overlapBshifted] }

/-- A degenerate (zero-length) wall. -/
def degenWall : Wall :=
  { id := "w2", a := ⟨100, 200⟩, b := ⟨100, 200⟩, thicknessMm := 200,
    heightMm := 2700 }

/-- A second door with a fresh id, used in the history witness. -/
def freshDoor : Opening :=
  { id := "o2", wallId := "w1", type := .door, offsetMm := 3000,
    widthMm := 900, heightMm := 2100, sillHeightMm := 0 }

/-- An opening whose `wallId` resolves to no wall. -/
def danglingOpening : Opening :=
  { id := "o8", wallId := "w404", type := .door, offsetMm := 0,
    widthMm := 900, heightMm := 2100, sillHeightMm := 0 }

/-- A partial wall update naming only `heightMm` (a key the
`UpdateWallCommand` constructor does not snapshot). -/
def heightOnlyPatch : PartialWall :=
  { heightMm := some 1900 }

/-- A partial wall update naming only `thicknessMm` (snapshotted). -/
def thicknessPatch : PartialWall :=
  { thicknessMm := some 300 }

/-- Update command for a wall id absent from `sampleProject`. -/
def staleWallCmd : UpdateWallCommand :=
  { wallId := "w404", newProperties := thicknessPatch, levelIndex := 0,
    oldProperties := { thicknessMm := some 200 } }

/-- Update command for an opening id absent from `sampleProject`. -/
def staleOpeningCmd : UpdateOpeningCommand :=
  { openingId := "o404", newProperties := { widthMm := some 1200 },
    levelIndex := 0, oldProperties := { widthMm := some 900 } }

/-- Move command for an opening id absent from `sampleProject`. -/
def staleMoveCmd : MoveOpeningCommand :=
  { openingId := "o404", newOffset := 2500, levelIndex := 0,
    oldOffset := 1000 }

/-- A two-command sequence (add a fresh-id door, then move the original
door) each of whose undos inverts its execute at the state where it
ran: used to witness the undo/redo round trip. -/
def c1Cmds : List Cmd :=
  [AddOpeningCommand.toCmd ⟨freshDoor, 0⟩,
   MoveOpeningCommand.toCmd ⟨"o1", 2500, 0, 1000⟩]

/-! # Theorems -/

/-- C4 (counterexample): `badDoor` violates two dimension rules (width
600 < 700 and height 1500 < 1800) but `validateOpeningDimensions`
returns a single issue, not one issue per violated rule: every branch
of the source returns immediately. -/
theorem dimension_issue_count_counterexample :
    (violatedRules badDoor).length = 2 ∧
      (validateOpeningDimensions badDoor).length = 1 ∧
      ¬(validateOpeningDimensions badDoor).length =
        (violatedRules badDoor).length := by
  refine ⟨by decide, by decide, by decide⟩

/-- C4 (amended): `validateOpeningDimensions` returns at most one issue
per opening — exactly the issue of the *first* violated rule in source
order (door width, door height, door sill, window sill), with the code
and `suggestedFix` the claim lists; an opening violating no rule yields
the empty list. -/
theorem dimension_issue_is_first_violation (o : Opening) :
    validateOpeningDimensions o =
      ((violatedRules o).head?.map (issueForRule o)).toList := by
  cases h : o.type
  case door =>
    have hbw : (OpeningType.door == OpeningType.window) = false := by decide
    by_cases h1 : o.widthMm < 700
    · have b1 : decide (o.widthMm < 700) = true := by simpa using h1
      simp [validateOpeningDimensions, violatedRules, ruleViolated,
        issueForRule, h, h1, hbw, b1, List.filter]
    · have b1 : decide (o.widthMm < 700) = false := by simpa using h1
      by_cases h2 : o.heightMm < 1800
      · have b2 : decide (o.heightMm < 1800) = true := by simpa using h2
        simp [validateOpeningDimensions, violatedRules, ruleViolated,
          issueForRule, h, h1, h2, hbw, b1, b2, List.filter]
      · have b2 : decide (o.heightMm < 1800) = false := by simpa using h2
        by_cases h3 : o.sillHeightMm = 0
        · have b3 : (o.sillHeightMm != 0) = false := by simp [h3]
          simp [validateOpeningDimensions, violatedRules, ruleViolated,
            issueForRule, h, h1, h2, h3, hbw, b1, b2, b3, List.filter]
        · have b3 : (o.sillHeightMm != 0) = true := by
            simpa [bne_iff_ne] using h3
          simp [validateOpeningDimensions, violatedRules, ruleViolated,
            issueForRule, h, h1, h2, h3, hbw, b1, b2, b3, List.filter]
  case window =>
    have hwd : (OpeningType.window == OpeningType.door) = false := by decide
    by_cases h1 : o.sillHeightMm < 600
    · have b1 : decide (o.sillHeightMm < 600) = true := by simpa using h1
      simp [validateOpeningDimensions, violatedRules, ruleViolated,
        issueForRule, h, h1, hwd, b1, List.filter]
    · have b1 : decide (o.sillHeightMm < 600) = false := by simpa using h1
      simp [validateOpeningDimensions, violatedRules, ruleViolated,
        issueForRule, h, h1, hwd, b1, List.filter]

/-- Membership in the first-occurrence fold: an id is collected iff it
was already in the accumulator or occurs in the remaining openings. -/
theorem mem_firstOcc_foldl (os : List Opening) (acc : List String) (x : String) :
    (x ∈ os.foldl firstOccStep acc) ↔
      x ∈ acc ∨ ∃ o ∈ os, o.wallId = x := by
  induction os generalizing acc with
  | nil => simp
  | cons o rest ih =>
    simp only [List.foldl_cons]
    rw [ih]
    unfold firstOccStep
    by_cases hc : acc.contains o.wallId
    · rw [if_pos hc]
      have hm : o.wallId ∈ acc := by simpa using hc
      constructor
      · rintro (hx | hx)
        · exact Or.inl hx
        · exact Or.inr (by simpa using Or.inr hx)
      · rintro (hx | hx)
        · exact Or.inl hx
        · rcases (by simpa using hx :
              o.wallId = x ∨ ∃ o ∈ rest, o.wallId = x) with h | h
          · exact Or.inl (h ▸ hm)
          · exact Or.inr h
    · rw [if_neg hc]
      simp only [List.mem_append, List.mem_singleton]
      constructor
      · rintro ((hx | hx) | hx)
        · exact Or.inl hx
        · exact Or.inr (by simpa using Or.inl hx.symm)
        · exact Or.inr (by simpa using Or.inr hx)
      · rintro (hx | hx)
        · exact Or.inl (Or.inl hx)
        · rcases (by simpa using hx :
              o.wallId = x ∨ ∃ o ∈ rest, o.wallId = x) with h | h
          · exact Or.inl (Or.inr h.symm)
          · exact Or.inr h

/-- Every wallId occurring in the list is collected. -/
theorem mem_firstOccurrenceWallIds (os : List Opening) (x : String) :
    x ∈ firstOccurrenceWallIds os ↔ ∃ o ∈ os, o.wallId = x := by
  unfold firstOccurrenceWallIds
  rw [mem_firstOcc_foldl]
  simp

/-- If a wallId was never collected, no opening carries it. -/
theorem filter_eq_nil_of_not_mem_firstOcc (os : List Opening) (x : String)
    (hx : x ∉ firstOccurrenceWallIds os) :
    os.filter (fun o => o.wallId == x) = [] := by
  rw [List.filter_eq_nil_iff]
  intro o ho
  simp only [beq_iff_eq]
  intro hw
  exact hx ((mem_firstOccurrenceWallIds os x).2 ⟨o, ho, hw⟩)

/-- `any` over a mapped list. -/
theorem any_map_eta {α β : Type} (l : List α) (f : α → β) (p : β → Bool) :
    (l.map f).any p = l.any (fun x => p (f x)) := by
  induction l with
  | nil => rfl
  | cons x xs ih => simp [List.any_cons, ih]

/-- The grouping fold applied to a snoc. -/
theorem groupByWall_append_singleton (os : List Opening) (o : Opening) :
    groupByWall (os ++ [o]) = groupStep (groupByWall os) o := by
  simp [groupByWall, List.foldl_append]

/-- The first-occurrence fold applied to a snoc. -/
theorem firstOcc_append_singleton (os : List Opening) (o : Opening) :
    firstOccurrenceWallIds (os ++ [o]) =
      firstOccStep (firstOccurrenceWallIds os) o := by
  simp [firstOccurrenceWallIds, List.foldl_append]

/-- The JS-`Map` grouping equals per-key filtering over the distinct
wallIds in first-occurrence order. -/
theorem groupByWall_eq_filter (os : List Opening) :
    groupByWall os =
      (firstOccurrenceWallIds os).map
        (fun wid => (wid, os.filter (fun o => o.wallId == wid))) := by
  induction os using List.reverseRecOn with
  | nil => simp [groupByWall, firstOccurrenceWallIds]
  | append_singleton os o ih =>
    rw [groupByWall_append_singleton, firstOcc_append_singleton,
      groupStep, firstOccStep]
    by_cases hc : o.wallId ∈ firstOccurrenceWallIds os
    · have hany : (groupByWall os).any (fun p => p.1 == o.wallId) = true := by
        rw [ih, any_map_eta]
        exact List.any_eq_true.2 ⟨o.wallId, hc, by simp⟩
      rw [if_pos hany, if_pos (by simpa using hc), ih, List.map_map]
      refine List.map_congr_left (fun wid hwid => ?_)
      by_cases hw : wid = o.wallId
      · subst hw
        simp [List.filter_append]
      · have hb : (wid == o.wallId) = false := by simpa using hw
        have hb' : (o.wallId == wid) = false := by
          simpa using (Ne.symm hw)
        simp [List.filter_append, hb, hb', hw]
    · have hany : (groupByWall os).any (fun p => p.1 == o.wallId) = false := by
        rw [ih, any_map_eta]
        refine List.any_eq_false.2 (fun wid hwid => ?_)
        have hne : wid ≠ o.wallId := fun h => hc (h ▸ hwid)
        simp [hne]
      rw [if_neg (by simp [hany]), if_neg (by simpa using hc), ih,
        List.map_append]
      congr 1
      · refine List.map_congr_left (fun wid hwid => ?_)
        have hne : o.wallId ≠ wid := fun h => hc (h ▸ hwid)
        simp [List.filter_append, beq_eq_false_iff_ne.2 hne]
      · simp [List.filter_append,
          filter_eq_nil_of_not_mem_firstOcc os o.wallId hc]

/-- Lists with fewer than two entries produce no adjacent-pair issues. -/
theorem adjacentOverlapIssues_short (wid : String) (l : List Opening)
    (h : l.length < 2) : adjacentOverlapIssues wid l = [] := by
  match l with
  | [] => rfl
  | [x] => rfl
  | x :: y :: rest => simp at h; omega

/-- Insertion preserves length. -/
theorem length_insertByOffset (o : Opening) (l : List Opening) :
    (insertByOffset o l).length = l.length + 1 := by
  induction l with
  | nil => rfl
  | cons x xs ih =>
    rw [insertByOffset]
    split
    · simp
    · simp [ih]

/-- Sorting preserves length. -/
theorem length_sortByOffset (l : List Opening) :
    (sortByOffset l).length = l.length := by
  induction l with
  | nil => rfl
  | cons x xs ih =>
    rw [sortByOffset, length_insertByOffset, ih]
    rfl

/-- `flatMap` over a mapped list. -/
theorem flatMap_map_eta {α β γ : Type} (l : List α) (f : α → β)
    (g : β → List γ) :
    (l.map f).flatMap g = l.flatMap (fun x => g (f x)) := by
  induction l with
  | nil => rfl
  | cons x xs ih => simp [ih]

/-- C5: the overlap validator reports an OPENINGS_OVERLAP issue exactly
for the adjacent pairs with `currentEnd > nextStart` in each wall's
offset-sorted opening list (touching endpoints produce no issue); on the
claim's concrete scenario, offsets 500/1400 with widths 900/1200 yield
no issue, and moving the second opening to 1399 yields exactly one. -/
theorem overlap_issue_exactly_on_sorted_adjacent_pairs :
    (∀ level : Level, validateOpeningsNoOverlap level = overlapIssuesSpec level) ∧
      validateOpeningsNoOverlap touchingLevel = [] ∧
      validateOpeningsNoOverlap overlappingLevel =
        [⟨"OPENINGS_OVERLAP", .error, "oa", none⟩] := by
  refine ⟨fun level => ?_, by decide, by decide⟩
  rw [validateOpeningsNoOverlap, overlapIssuesSpec, groupByWall_eq_filter,
    flatMap_map_eta]
  have hfun : ∀ wid : String,
      (if (level.openings.filter (fun o => o.wallId == wid)).length < 2 then
        ([] : List ValidationIssue)
      else
        adjacentOverlapIssues wid
          (sortByOffset (level.openings.filter (fun o => o.wallId == wid)))) =
        adjacentOverlapIssues wid
          (sortByOffset (level.openings.filter (fun o => o.wallId == wid))) := by
    intro wid
    split
    · next h =>
      rw [adjacentOverlapIssues_short]
      rw [length_sortByOffset]
      exact h
    · rfl
  exact List.flatMap_congr (fun wid _ => hfun wid)

/-- The openings-geometry batch helper errors exactly when some opening's
wallId is unresolved. -/
theorem deriveOpeningsGeometry_error_iff (os : List Opening) (ws : List Wall) :
    (∃ e, deriveOpeningsGeometry os ws = .error e) ↔
      ∃ o ∈ os, ws.find? (fun w => w.id == o.wallId) = none := by
  induction os with
  | nil => simp [deriveOpeningsGeometry]
  | cons o rest ih =>
    rw [deriveOpeningsGeometry]
    cases hf : ws.find? (fun w => w.id == o.wallId) with
    | none =>
      constructor
      · intro _
        exact ⟨o, by simp, hf⟩
      · intro _
        exact ⟨_, rfl⟩
    | some wall =>
      constructor
      · rintro ⟨e, he⟩
        cases hr : deriveOpeningsGeometry rest ws with
        | error e' =>
          rcases ih.1 ⟨e', hr⟩ with ⟨o', ho', hw'⟩
          exact ⟨o', List.mem_cons_of_mem _ ho', hw'⟩
        | ok gs =>
          rw [hr] at he
          simp [Except.map] at he
      · rintro ⟨o', ho', hw'⟩
        rcases List.mem_cons.1 ho' with rfl | ho'
        · rw [hw'] at hf
          cases hf
        · rcases ih.2 ⟨o', ho', hw'⟩ with ⟨e, he⟩
          refine ⟨e, ?_⟩
          rw [he]
          rfl

/-- On success the batch helper returns one geometry per opening, in
input order (witnessed by the opening ids). -/
theorem deriveOpeningsGeometry_ok_ids (os : List Opening) (ws : List Wall)
    (gs : List OpeningGeometry) (h : deriveOpeningsGeometry os ws = .ok gs) :
    gs.map (fun g => g.openingId) = os.map (fun o => o.id) := by
  induction os generalizing gs with
  | nil =>
    rw [deriveOpeningsGeometry] at h
    cases h
    rfl
  | cons o rest ih =>
    rw [deriveOpeningsGeometry] at h
    cases hf : ws.find? (fun w => w.id == o.wallId) with
    | none =>
      rw [hf] at h
      cases h
    | some wall =>
      rw [hf] at h
      cases hr : deriveOpeningsGeometry rest ws with
      | error e =>
        rw [hr] at h
        cases h
      | ok gs' =>
        rw [hr] at h
        cases h
        simp only [List.map_cons]
        rw [ih gs' hr]
        rfl

/-- C8: `deriveOpeningsGeometry` throws iff some opening's wallId
matches no wall, and otherwise returns one geometry per opening in
input order; `validateOpeningFitsWall` on the same unresolved reference
never throws (it is total) and returns a single WALL_NOT_FOUND error
with a delete suggestedFix. -/
theorem openings_geometry_throws_iff_unresolved :
    (∀ (os : List Opening) (ws : List Wall),
      (∃ e, deriveOpeningsGeometry os ws = .error e) ↔
        ∃ o ∈ os, ws.find? (fun w => w.id == o.wallId) = none) ∧
      (∀ (os : List Opening) (ws : List Wall) (gs : List OpeningGeometry),
        deriveOpeningsGeometry os ws = .ok gs →
          gs.map (fun g => g.openingId) = os.map (fun o => o.id)) ∧
      (∀ (o : Opening) (ws : List Wall),
        ws.find? (fun w => w.id == o.wallId) = none →
          validateOpeningFitsWall o ws =
            [⟨"WALL_NOT_FOUND", .error, o.id,
              some (.deleteEntity "Wall does not exist")⟩]) := by
  refine ⟨deriveOpeningsGeometry_error_iff, deriveOpeningsGeometry_ok_ids,
    fun o ws h => ?_⟩
  simp [validateOpeningFitsWall, h]

/-- C8 (witness): concrete resolvable and unresolvable instances. -/
theorem openings_geometry_throws_iff_unresolved_witness :
    ([deriveOpeningGeometry sampleDoor sampleWall].map (fun g => g.openingId) =
      [sampleDoor].map (fun o => o.id)) ∧
      validateOpeningFitsWall danglingOpening [sampleWall] =
        [⟨"WALL_NOT_FOUND", .error, "o8",
          some (.deleteEntity "Wall does not exist")⟩] ∧
      (∃ e, deriveOpeningsGeometry [danglingOpening] [sampleWall] = .error e) := by
  refine ⟨openings_geometry_throws_iff_unresolved.2.1 [sampleDoor] [sampleWall]
      [deriveOpeningGeometry sampleDoor sampleWall] rfl,
    ?_, ?_⟩
  · have h := openings_geometry_throws_iff_unresolved.2.2 danglingOpening
      [sampleWall] (by rfl)
    rw [h]
    rfl
  · exact (openings_geometry_throws_iff_unresolved.1 [danglingOpening]
      [sampleWall]).2 ⟨danglingOpening, by simp, by rfl⟩

/-- For a zero-length direction the perpendicular helper returns the
zero offset. -/
theorem getPerpendicular_self (p : RPoint) (d : ℝ) :
    getPerpendicular p p d = ⟨0, 0⟩ := by
  simp [getPerpendicular]

/-- For a zero-length wall every point along the wall is `a`. -/
theorem getPointAlongWall_degenerate (wall : Wall) (h : wall.a = wall.b)
    (d : ℝ) : getPointAlongWall wall d = wall.a.toR := by
  rw [getPointAlongWall]
  rw [show wall.b = wall.a from h.symm]
  simp

/-- C9: on a wall whose endpoints coincide, both geometry derivations
take the `{0,0}`-perpendicular guard path: every outline/rectangle
corner and anchor equals the endpoint `a` exactly (in the real-number
model of float arithmetic this is the no-NaN guarantee: the outputs are
the finite input coordinates, no division by the zero length occurs). -/
theorem zero_length_wall_geometry (wall : Wall) (h : wall.a = wall.b) :
    (deriveWallGeometry wall).outline =
        [wall.a.toR, wall.a.toR, wall.a.toR, wall.a.toR] ∧
      (deriveWallGeometry wall).centerlineStart = wall.a.toR ∧
      (deriveWallGeometry wall).centerlineEnd = wall.a.toR ∧
      ∀ o : Opening,
        (deriveOpeningGeometry o wall).topLeft = wall.a.toR ∧
          (deriveOpeningGeometry o wall).topRight = wall.a.toR ∧
          (deriveOpeningGeometry o wall).bottomRight = wall.a.toR ∧
          (deriveOpeningGeometry o wall).bottomLeft = wall.a.toR ∧
          (deriveOpeningGeometry o wall).position = wall.a.toR := by
  have hb : wall.b = wall.a := h.symm
  refine ⟨?_, ?_, ?_, fun o => ?_⟩
  · simp [deriveWallGeometry, hb, getPerpendicular_self]
  · simp [deriveWallGeometry]
  · simp [deriveWallGeometry, hb]
  · refine ⟨?_, ?_, ?_, ?_, ?_⟩ <;>
      simp [deriveOpeningGeometry, hb, getPerpendicular_self,
        getPointAlongWall_degenerate wall h]

/-- C9 (witness): the degenerate wall fixture. -/
theorem zero_length_wall_geometry_witness :
    degenWall.a = degenWall.b ∧
      (deriveWallGeometry degenWall).outline =
        [degenWall.a.toR, degenWall.a.toR, degenWall.a.toR, degenWall.a.toR] ∧
      (deriveOpeningGeometry sampleDoor degenWall).position = degenWall.a.toR := by
  refine ⟨rfl, (zero_length_wall_geometry degenWall rfl).1, ?_⟩
  exact ((zero_length_wall_geometry degenWall rfl).2.2.2 sampleDoor).2.2.2.2

/-- If no element matches, `updateFirst` is the identity. -/
theorem updateFirst_of_find_none (f : α → Bool) (g : α → α) (l : List α)
    (h : l.find? f = none) : updateFirst f g l = l := by
  rw [List.find?_eq_none] at h
  induction l with
  | nil => rfl
  | cons x xs ih =>
    rw [updateFirst, if_neg (by simpa using h x (by simp))]
    rw [ih (fun y hy => h y (by simp [hy]))]

/-- Out-of-range `modifyIdx` is the identity. -/
theorem modifyIdx_of_get_none (i : Nat) (g : α → α) (l : List α)
    (h : l.get? i = none) : modifyIdx i g l = l := by
  induction l generalizing i with
  | nil => simp [modifyIdx]
  | cons x xs ih =>
    cases i with
    | zero => cases h
    | succ n =>
      rw [modifyIdx]
      rw [ih n (by simpa using h)]

/-- `modifyIdx` with a function fixing the element is the identity. -/
theorem modifyIdx_of_fix (i : Nat) (g : α → α) (l : List α) (x : α)
    (h : l.get? i = some x) (hg : g x = x) : modifyIdx i g l = l := by
  induction l generalizing i with
  | nil => cases h
  | cons y ys ih =>
    cases i with
    | zero =>
      rw [modifyIdx]
      have : y = x := by simpa using h
      rw [this, hg]
    | succ n =>
      rw [modifyIdx]
      rw [ih n (by simpa using h)]

/-- A per-level rewrite that fixes the addressed level fixes the whole
project. -/
theorem modifyLevel_id (p : Project) (li : Nat) (F : Level → Level)
    (hF : ∀ lvl, p.levels.get? li = some lvl → F lvl = lvl) :
    { p with levels := modifyIdx li F p.levels } = p := by
  cases hl : p.levels.get? li with
  | none =>
    rw [modifyIdx_of_get_none li F p.levels hl]
  | some lvl =>
    rw [modifyIdx_of_fix li F p.levels lvl hl (hF lvl hl)]

/-- C10: when the target entity (or the whole level) has disappeared
after construction, `execute` and `undo` of the update/move commands
are total functions returning the project unchanged — the not-found
throw exists only in the constructors. -/
theorem stale_update_commands_are_silent_noops :
    (∀ (p : Project) (c : UpdateWallCommand),
      (p.levels.get? c.levelIndex).bind
          (fun lvl => lvl.walls.find? (fun w => w.id == c.wallId)) = none →
        c.execute p = p ∧ c.undo p = p) ∧
      (∀ (p : Project) (c : UpdateOpeningCommand),
        (p.levels.get? c.levelIndex).bind
            (fun lvl => lvl.openings.find? (fun o => o.id == c.openingId)) =
            none →
          c.execute p = p ∧ c.undo p = p) ∧
      (∀ (p : Project) (c : MoveOpeningCommand),
        (p.levels.get? c.levelIndex).bind
            (fun lvl => lvl.openings.find? (fun o => o.id == c.openingId)) =
            none →
          c.execute p = p ∧ c.undo p = p) := by
  refine ⟨fun p c h => ⟨?_, ?_⟩, fun p c h => ⟨?_, ?_⟩, fun p c h => ⟨?_, ?_⟩⟩
  · rw [UpdateWallCommand.execute]
    refine modifyLevel_id p c.levelIndex _ (fun lvl hl => ?_)
    rw [hl] at h
    simp only [Option.some_bind] at h
    rw [updateFirst_of_find_none _ _ _ h]
  · rw [UpdateWallCommand.undo]
    refine modifyLevel_id p c.levelIndex _ (fun lvl hl => ?_)
    rw [hl] at h
    simp only [Option.some_bind] at h
    rw [updateFirst_of_find_none _ _ _ h]
  · rw [UpdateOpeningCommand.execute]
    refine modifyLevel_id p c.levelIndex _ (fun lvl hl => ?_)
    rw [hl] at h
    simp only [Option.some_bind] at h
    rw [updateFirst_of_find_none _ _ _ h]
  · rw [UpdateOpeningCommand.undo]
    refine modifyLevel_id p c.levelIndex _ (fun lvl hl => ?_)
    rw [hl] at h
    simp only [Option.some_bind] at h
    rw [updateFirst_of_find_none _ _ _ h]
  · rw [MoveOpeningCommand.execute]
    refine modifyLevel_id p c.levelIndex _ (fun lvl hl => ?_)
    rw [hl] at h
    simp only [Option.some_bind] at h
    rw [updateFirst_of_find_none _ _ _ h]
  · rw [MoveOpeningCommand.undo]
    refine modifyLevel_id p c.levelIndex _ (fun lvl hl => ?_)
    rw [hl] at h
    simp only [Option.some_bind] at h
    rw [updateFirst_of_find_none _ _ _ h]

/-- C10 (witness): stale commands aimed at `sampleProject`. -/
theorem stale_update_commands_are_silent_noops_witness :
    (staleWallCmd.execute sampleProject = sampleProject ∧
        staleWallCmd.undo sampleProject = sampleProject) ∧
      (staleOpeningCmd.execute sampleProject = sampleProject ∧
        staleOpeningCmd.undo sampleProject = sampleProject) ∧
      (staleMoveCmd.execute sampleProject = sampleProject ∧
        staleMoveCmd.undo sampleProject = sampleProject) :=
  ⟨stale_update_commands_are_silent_noops.1 sampleProject staleWallCmd
      (by decide),
    stale_update_commands_are_silent_noops.2.1 sampleProject staleOpeningCmd
      (by decide),
    stale_update_commands_are_silent_noops.2.2 sampleProject staleMoveCmd
      (by decide)⟩

/-- `updateFirst` rewrites exactly the position of the first match. -/
theorem updateFirst_eq_set (m : α → Bool) (g : α → α) (l : List α) (i : Nat)
    (y : α) (hbefore : ∀ j y', j < i → l.get? j = some y' → m y' = false)
    (hi : l.get? i = some y) (hm : m y = true) :
    updateFirst m g l = l.set i (g y) := by
  induction l generalizing i with
  | nil => cases hi
  | cons x xs ih =>
    cases i with
    | zero =>
      have hx : x = y := by simpa using hi
      subst hx
      rw [updateFirst, if_pos hm]
      rfl
    | succ n =>
      have hx : m x = false := hbefore 0 x (Nat.succ_pos n) rfl
      rw [updateFirst, if_neg (by simp [hx])]
      rw [ih n (fun j y' hj hy' => hbefore (j + 1) y' (by omega) hy')
        (by simpa using hi)]
      rfl

/-- The first match of `find?` sits at a position before which nothing
matches. -/
theorem find?_first_index (m : α → Bool) (l : List α) (y : α)
    (h : l.find? m = some y) :
    ∃ i, l.get? i = some y ∧ m y = true ∧
      ∀ j y', j < i → l.get? j = some y' → m y' = false := by
  induction l with
  | nil => cases h
  | cons x xs ih =>
    by_cases hx : m x
    · rw [List.find?_cons_of_pos _ hx] at h
      refine ⟨0, by simpa using h, ?_, fun j y' hj _ => absurd hj (by omega)⟩
      cases h
      exact hx
    · rw [List.find?_cons_of_neg _ (by simpa using hx)] at h
      rcases ih h with ⟨i, hi, hm, hbefore⟩
      refine ⟨i + 1, by simpa using hi, hm, fun j y' hj hy' => ?_⟩
      cases j with
      | zero =>
        have hxy : x = y' := by simpa using hy'
        rw [← hxy]
        simpa using hx
      | succ n => exact hbefore n y' (by omega) (by simpa using hy')

/-- Two `modifyIdx` passes at the same index compose. -/
theorem modifyIdx_modifyIdx (i : Nat) (F G : α → α) (l : List α) :
    modifyIdx i G (modifyIdx i F l) = modifyIdx i (fun x => G (F x)) l := by
  induction l generalizing i with
  | nil => simp [modifyIdx]
  | cons x xs ih =>
    cases i with
    | zero => simp [modifyIdx]
    | succ n => simp [modifyIdx, ih]

/-- Setting a position to the value it already holds is a no-op. -/
theorem set_get_self (l : List α) (i : Nat) (x : α) (h : l.get? i = some x) :
    l.set i x = l := by
  induction l generalizing i with
  | nil => rfl
  | cons y ys ih =>
    cases i with
    | zero =>
      have : y = x := by simpa using h
      simp [this]
    | succ n =>
      simp [List.set_cons_succ, ih n (by simpa using h)]

/-- `modifyIdx` at a present index is a `set`. -/
theorem modifyIdx_eq_set (i : Nat) (F : α → α) (l : List α) (x : α)
    (h : l.get? i = some x) : modifyIdx i F l = l.set i (F x) := by
  induction l generalizing i with
  | nil => cases h
  | cons y ys ih =>
    cases i with
    | zero =>
      have : y = x := by simpa using h
      subst this
      rfl
    | succ n =>
      rw [modifyIdx]
      rw [ih n (by simpa using h)]
      rfl

/-- Undoing the wall snapshot over the applied partial restores the
wall, provided the partial touches only snapshotted keys. -/
theorem applyPartialWall_snapshot (P : PartialWall) (wall : Wall)
    (hh : P.heightMm = none) (hid : P.id = none) :
    applyPartialWall
      { a := if P.a.isSome then some wall.a else none
        b := if P.b.isSome then some wall.b else none
        thicknessMm :=
          if P.thicknessMm.isSome then some wall.thicknessMm else none }
      (applyPartialWall P wall) = wall := by
  rcases P with ⟨pid, pa, pb, pt, ph⟩
  obtain rfl : ph = none := hh
  obtain rfl : pid = none := hid
  cases pa <;> cases pb <;> cases pt <;> simp [applyPartialWall]

/-- Opening analogue: only `widthMm` and `type` are snapshotted. -/
theorem applyPartialOpening_snapshot (P : PartialOpening) (o : Opening)
    (hid : P.id = none) (hw : P.wallId = none) (hoff : P.offsetMm = none)
    (hh : P.heightMm = none) (hs : P.sillHeightMm = none) :
    applyPartialOpening
      { widthMm := if P.widthMm.isSome then some o.widthMm else none
        type := if P.type.isSome then some o.type else none }
      (applyPartialOpening P o) = o := by
  rcases P with ⟨pid, pw, pt, po, pwd, ph, ps⟩
  obtain rfl : pid = none := hid
  obtain rfl : pw = none := hw
  obtain rfl : po = none := hoff
  obtain rfl : ph = none := hh
  obtain rfl : ps = none := hs
  cases pt <;> cases pwd <;> simp [applyPartialOpening]

/-- A present index is in range. -/
theorem lt_length_of_get?_some (l : List α) (i : Nat) (x : α)
    (h : l.get? i = some x) : i < l.length := by
  induction l generalizing i with
  | nil => cases h
  | cons y ys ih =>
    cases i with
    | zero => simp
    | succ n =>
      have := ih n (by simpa using h)
      simpa using Nat.succ_lt_succ this

/-- Reading back the position just set. -/
theorem get?_set_self (l : List α) (i : Nat) (v : α) (h : i < l.length) :
    (l.set i v).get? i = some v := by
  induction l generalizing i with
  | nil => simp at h
  | cons y ys ih =>
    cases i with
    | zero => rfl
    | succ n => simpa using ih n (by simpa using h)

/-- Reading any other position after a set. -/
theorem get?_set_other (l : List α) (i j : Nat) (v : α) (h : i ≠ j) :
    (l.set i v).get? j = l.get? j := by
  induction l generalizing i j with
  | nil => rfl
  | cons y ys ih =>
    cases i with
    | zero =>
      cases j with
      | zero => exact absurd rfl h
      | succ n => rfl
    | succ n =>
      cases j with
      | zero => rfl
      | succ k => simpa using ih n k (by omega)

/-- Applying the partial and then re-applying the snapshot leaves the
array unchanged, when the snapshot inverts on the matched element and
the rewrite preserves the match. -/
theorem updateFirst_undo (m : α → Bool) (g g' : α → α) (l : List α) (y : α)
    (hfind : l.find? m = some y) (hgy : g' (g y) = y) (hmy : m (g y) = true) :
    updateFirst m g' (updateFirst m g l) = l := by
  rcases find?_first_index m l y hfind with ⟨i, hi, hm, hbefore⟩
  have hlen : i < l.length := lt_length_of_get?_some l i y hi
  rw [updateFirst_eq_set m g l i y hbefore hi hm]
  rw [updateFirst_eq_set m g' (l.set i (g y)) i (g y)
    (fun j y' hj hy' => by
      rw [get?_set_other l i j (g y) (by omega)] at hy'
      exact hbefore j y' hj hy')
    (get?_set_self l i (g y) hlen) hmy]
  rw [List.set_set, hgy, set_get_self l i y hi]

/-- C2 (counterexample): `UpdateWallCommand` with the partial
`{heightMm: 1900}` executes and undoes without restoring `heightMm`
(the constructor snapshots only `a`, `b` and `thicknessMm`): the wall
keeps height 1900 instead of its prior 2700, so the project is not
restored. -/
theorem update_command_unsnapshotted_field_counterexample :
    (UpdateWallCommand.mk? "w1" heightOnlyPatch sampleProject 0).isSome =
        true ∧
      (UpdateWallCommand.mk? "w1" heightOnlyPatch sampleProject 0).map
          (fun c => c.undo (c.execute sampleProject)) ≠ some sampleProject ∧
      (UpdateWallCommand.mk? "w1" heightOnlyPatch sampleProject 0).map
          (fun c =>
            (c.undo (c.execute sampleProject)).levels.map
              (fun lvl => lvl.walls.map (fun w => w.heightMm))) =
        some [[1900]] ∧
      sampleProject.levels.map
          (fun lvl => lvl.walls.map (fun w => w.heightMm)) = [[2700]] := by
  refine ⟨by decide, by decide, by decide, by decide⟩

/-- C2 (amended): for update commands whose partial names only
snapshotted keys (`a`/`b`/`thicknessMm` for walls, `widthMm`/`type` for
openings), execute-then-undo restores the project exactly; execute
rewrites only the first matching entity's position, and on that entity
every field not named in the partial keeps its value. -/
theorem update_commands_restore_snapshotted_fields :
    (∀ (p : Project) (wallId : String) (P : PartialWall) (li : Nat)
        (c : UpdateWallCommand),
      UpdateWallCommand.mk? wallId P p li = some c →
      P.heightMm = none → P.id = none →
      c.undo (c.execute p) = p ∧
        ∀ lvl wall, p.levels.get? li = some lvl →
          lvl.walls.find? (fun w => w.id == wallId) = some wall →
          (∃ i, lvl.walls.get? i = some wall ∧
            (c.execute p).levels = p.levels.set li
              { lvl with
                walls := lvl.walls.set i (applyPartialWall P wall) }) ∧
            (P.a = none → (applyPartialWall P wall).a = wall.a) ∧
            (P.b = none → (applyPartialWall P wall).b = wall.b) ∧
            (P.thicknessMm = none →
              (applyPartialWall P wall).thicknessMm = wall.thicknessMm) ∧
            (applyPartialWall P wall).heightMm = wall.heightMm ∧
            (applyPartialWall P wall).id = wall.id) ∧
      (∀ (p : Project) (openingId : String) (P : PartialOpening) (li : Nat)
          (c : UpdateOpeningCommand),
        UpdateOpeningCommand.mk? openingId P p li = some c →
        P.id = none → P.wallId = none → P.offsetMm = none →
        P.heightMm = none → P.sillHeightMm = none →
        c.undo (c.execute p) = p ∧
          ∀ lvl o, p.levels.get? li = some lvl →
            lvl.openings.find? (fun x => x.id == openingId) = some o →
            (∃ i, lvl.openings.get? i = some o ∧
              (c.execute p).levels = p.levels.set li
                { lvl with
                  openings := lvl.openings.set i (applyPartialOpening P o) }) ∧
              (P.widthMm = none →
                (applyPartialOpening P o).widthMm = o.widthMm) ∧
              (P.type = none → (applyPartialOpening P o).type = o.type) ∧
              (applyPartialOpening P o).id = o.id ∧
              (applyPartialOpening P o).wallId = o.wallId ∧
              (applyPartialOpening P o).offsetMm = o.offsetMm ∧
              (applyPartialOpening P o).heightMm = o.heightMm ∧
              (applyPartialOpening P o).sillHeightMm = o.sillHeightMm) := by
  constructor
  · intro p wallId P li c hmk hh hid
    rw [UpdateWallCommand.mk?] at hmk
    cases hl : p.levels.get? li with
    | none =>
      rw [hl] at hmk
      cases hmk
    | some lvl =>
      rw [hl] at hmk
      simp only [Option.some_bind] at hmk
      cases hw : lvl.walls.find? (fun w => w.id == wallId) with
      | none =>
        rw [hw] at hmk
        cases hmk
      | some wall =>
        rw [hw] at hmk
        simp only [Option.map_some'] at hmk
        cases hmk
        have hpred : (wall.id == wallId) = true := by
          have h1 := List.find?_some hw
          simpa using h1
        have hmy : ((applyPartialWall P wall).id == wallId) = true := by
          have h2 : (applyPartialWall P wall).id = wall.id := by
            simp [applyPartialWall, hid]
          rw [h2]
          exact hpred
        have hgy := applyPartialWall_snapshot P wall hh hid
        constructor
        · rw [UpdateWallCommand.execute, UpdateWallCommand.undo]
          simp only
          rw [modifyIdx_modifyIdx]
          refine modifyLevel_id p li _ (fun lvl' hl' => ?_)
          have hlv : lvl' = lvl := by
            rw [hl] at hl'
            injection hl' with h3
            exact h3.symm
          subst hlv
          simp only
          rw [updateFirst_undo _ _ _ lvl'.walls wall hw hgy hmy]
        · intro lvl' wall' hl' hw'
          have hlv : lvl' = lvl := by
            injection hl' with h3
            exact h3.symm
          subst hlv
          have hwv : wall' = wall := by
            rw [hw] at hw'
            injection hw' with h4
            exact h4.symm
          subst hwv
          rcases find?_first_index _ lvl'.walls wall' hw with ⟨i, hi, hm, hbefore⟩
          refine ⟨⟨i, hi, ?_⟩, ?_, ?_, ?_, ?_, ?_⟩
          · rw [UpdateWallCommand.execute]
            simp only
            rw [modifyIdx_eq_set li _ p.levels lvl' hl,
              updateFirst_eq_set _ _ lvl'.walls i wall' hbefore hi hm]
          · intro ha
            simp [applyPartialWall, ha]
          · intro hb
            simp [applyPartialWall, hb]
          · intro ht
            simp [applyPartialWall, ht]
          · simp [applyPartialWall, hh]
          · simp [applyPartialWall, hid]
  · intro p openingId P li c hmk hid hwid hoff hh hs
    rw [UpdateOpeningCommand.mk?] at hmk
    cases hl : p.levels.get? li with
    | none =>
      rw [hl] at hmk
      cases hmk
    | some lvl =>
      rw [hl] at hmk
      simp only [Option.some_bind] at hmk
      cases hw : lvl.openings.find? (fun x => x.id == openingId) with
      | none =>
        rw [hw] at hmk
        cases hmk
      | some o =>
        rw [hw] at hmk
        simp only [Option.map_some'] at hmk
        cases hmk
        have hpred : (o.id == openingId) = true := by
          have h1 := List.find?_some hw
          simpa using h1
        have hmy : ((applyPartialOpening P o).id == openingId) = true := by
          have h2 : (applyPartialOpening P o).id = o.id := by
            simp [applyPartialOpening, hid]
          rw [h2]
          exact hpred
        have hgy := applyPartialOpening_snapshot P o hid hwid hoff hh hs
        constructor
        · rw [UpdateOpeningCommand.execute, UpdateOpeningCommand.undo]
          simp only
          rw [modifyIdx_modifyIdx]
          refine modifyLevel_id p li _ (fun lvl' hl' => ?_)
          have hlv : lvl' = lvl := by
            rw [hl] at hl'
            injection hl' with h3
            exact h3.symm
          subst hlv
          simp only
          rw [updateFirst_undo _ _ _ lvl'.openings o hw hgy hmy]
        · intro lvl' o' hl' hw'
          have hlv : lvl' = lvl := by
            injection hl' with h3
            exact h3.symm
          subst hlv
          have hov : o' = o := by
            rw [hw] at hw'
            injection hw' with h4
            exact h4.symm
          subst hov
          rcases find?_first_index _ lvl'.openings o' hw with ⟨i, hi, hm, hbefore⟩
          refine ⟨⟨i, hi, ?_⟩, ?_, ?_, ?_, ?_, ?_, ?_, ?_⟩
          · rw [UpdateOpeningCommand.execute]
            simp only
            rw [modifyIdx_eq_set li _ p.levels lvl' hl,
              updateFirst_eq_set _ _ lvl'.openings i o' hbefore hi hm]
          · intro hwm
            simp [applyPartialOpening, hwm]
          · intro hty
            simp [applyPartialOpening, hty]
          · simp [applyPartialOpening, hid]
          · simp [applyPartialOpening, hwid]
          · simp [applyPartialOpening, hoff]
          · simp [applyPartialOpening, hh]
          · simp [applyPartialOpening, hs]

/-- C2 (witness): concrete whitelisted updates on `sampleProject`. -/
theorem update_commands_restore_snapshotted_fields_witness :
    (UpdateWallCommand.mk? "w1" thicknessPatch sampleProject 0 =
        some
          { wallId := "w1", newProperties := thicknessPatch, levelIndex := 0,
            oldProperties := { thicknessMm := some 200 } }) ∧
      UpdateWallCommand.undo
          { wallId := "w1", newProperties := thicknessPatch, levelIndex := 0,
            oldProperties := { thicknessMm := some 200 } }
          (UpdateWallCommand.execute
            { wallId := "w1", newProperties := thicknessPatch, levelIndex := 0,
              oldProperties := { thicknessMm := some 200 } } sampleProject) =
        sampleProject ∧
      (UpdateOpeningCommand.mk? "o1" { widthMm := some 1200 } sampleProject 0 =
        some
          { openingId := "o1", newProperties := { widthMm := some 1200 },
            levelIndex := 0, oldProperties := { widthMm := some 900 } }) ∧
      UpdateOpeningCommand.undo
          { openingId := "o1", newProperties := { widthMm := some 1200 },
            levelIndex := 0, oldProperties := { widthMm := some 900 } }
          (UpdateOpeningCommand.execute
            { openingId := "o1", newProperties := { widthMm := some 1200 },
              levelIndex := 0, oldProperties := { widthMm := some 900 } }
            sampleProject) =
        sampleProject := by
  refine ⟨by decide, ?_, by decide, ?_⟩
  · exact (update_commands_restore_snapshotted_fields.1 sampleProject "w1"
      thicknessPatch 0 _ (by decide) rfl rfl).1
  · exact (update_commands_restore_snapshotted_fields.2 sampleProject "o1"
      { widthMm := some 1200 } 0 _ (by decide) rfl rfl rfl rfl rfl).1

/-- The element at a `findIdx?` hit satisfies the predicate. -/
theorem findIdx?_found (p : α → Bool) (l : List α) (i : Nat) (x : α)
    (hi : l.findIdx? p = some i) (hx : l.get? i = some x) : p x = true := by
  induction l generalizing i with
  | nil => simp at hi
  | cons y ys ih =>
    rw [List.findIdx?_cons] at hi
    by_cases hy : p y
    · simp [hy] at hi
      subst hi
      have : y = x := by simpa using hx
      subst this
      exact hy
    · simp [hy] at hi
      rcases hi with ⟨j, hj, rfl⟩
      exact ih j hj (by simpa using hx)

/-- A WALL_NOT_FOUND issue for a dangling opening appears in the full
`validateProject` output. -/
theorem wallNotFound_mem_validateProject (p : Project) (lvl : Level)
    (o : Opening) (hl : lvl ∈ p.levels) (ho : o ∈ lvl.openings)
    (hw : lvl.walls.find? (fun w => w.id == o.wallId) = none) :
    (⟨"WALL_NOT_FOUND", .error, o.id,
      some (.deleteEntity "Wall does not exist")⟩ : ValidationIssue) ∈
      validateProject p := by
  rw [validateProject]
  refine List.mem_append.2 (Or.inr ?_)
  refine List.mem_flatMap.2 ⟨lvl, hl, ?_⟩
  refine List.mem_append.2 (Or.inl ?_)
  refine List.mem_append.2 (Or.inr ?_)
  refine List.mem_flatMap.2 ⟨o, ho, ?_⟩
  refine List.mem_append.2 (Or.inl ?_)
  rw [validateOpeningFitsWall, hw]
  exact List.mem_singleton.2 rfl

/-- C7: executing a `RemoveWallCommand` removes exactly the first wall
matching the stored id from the level's walls array, leaves the
openings array (and every other level) untouched, and the next
`validateProject` pass contains a WALL_NOT_FOUND error for every
opening whose wallId no longer resolves. -/
theorem remove_wall_keeps_openings_and_flags_danglers (p : Project)
    (wallId : String) (li : Nat) (c : RemoveWallCommand)
    (hmk : RemoveWallCommand.mk? wallId p li = some c) :
    (∀ lvl, p.levels.get? li = some lvl →
      (c.execute p).levels.get? li =
        some { lvl with
          walls := removeFirst (fun w => w.id == wallId) lvl.walls }) ∧
      (∀ j, j ≠ li → (c.execute p).levels.get? j = p.levels.get? j) ∧
      (∀ lvl', (c.execute p).levels.get? li = some lvl' →
        ∀ o ∈ lvl'.openings,
          lvl'.walls.find? (fun w => w.id == o.wallId) = none →
          (⟨"WALL_NOT_FOUND", .error, o.id,
            some (.deleteEntity "Wall does not exist")⟩ : ValidationIssue) ∈
            validateProject (c.execute p)) := by
  rw [RemoveWallCommand.mk?] at hmk
  cases hl : p.levels.get? li with
  | none =>
    rw [hl] at hmk
    cases hmk
  | some lvl =>
    rw [hl] at hmk
    simp only [Option.some_bind] at hmk
    cases hidx : lvl.walls.findIdx? (fun w => w.id == wallId) with
    | none =>
      rw [hidx] at hmk
      cases hmk
    | some idx =>
      rw [hidx] at hmk
      simp only [Option.some_bind] at hmk
      cases hg : lvl.walls.get? idx with
      | none =>
        rw [hg] at hmk
        cases hmk
      | some wall =>
        rw [hg] at hmk
        simp only [Option.map_some'] at hmk
        cases hmk
        have hwid : wall.id = wallId := by
          have := findIdx?_found _ lvl.walls idx wall hidx hg
          simpa using this
        have hlen : li < p.levels.length := lt_length_of_get?_some _ _ _ hl
        have hexec : (RemoveWallCommand.execute
            { wall := wall, levelIndex := li, originalIndex := idx }
            p).levels.get? li =
            some { lvl with
              walls := removeFirst (fun w => w.id == wallId) lvl.walls } := by
          rw [RemoveWallCommand.execute]
          simp only
          rw [modifyIdx_eq_set li _ p.levels lvl hl, hwid,
            get?_set_self _ _ _ hlen]
        refine ⟨?_, ?_, ?_⟩
        · intro lvl0 hl0
          have : lvl = lvl0 := by injection hl0
          subst this
          exact hexec
        · intro j hj
          rw [RemoveWallCommand.execute]
          simp only
          rw [modifyIdx_eq_set li _ p.levels lvl hl,
            get?_set_other _ _ _ _ (fun h => hj h.symm)]
        · intro lvl' hlvl' o ho hwo
          exact wallNotFound_mem_validateProject _ lvl' o
            (List.get?_mem hlvl') ho hwo

/-- C7 (witness): removing `w1` from `sampleProject` leaves the door
`o1` dangling and flagged. -/
theorem remove_wall_keeps_openings_and_flags_danglers_witness :
    (RemoveWallCommand.mk? "w1" sampleProject 0 =
        some { wall := sampleWall, levelIndex := 0, originalIndex := 0 }) ∧
      (RemoveWallCommand.execute
          { wall := sampleWall, levelIndex := 0, originalIndex := 0 }
          sampleProject).levels.get? 0 =
        some { sampleLevel with
          walls := removeFirst (fun w => w.id == "w1") sampleLevel.walls } ∧
      (⟨"WALL_NOT_FOUND", .error, "o1",
        some (.deleteEntity "Wall does not exist")⟩ : ValidationIssue) ∈
        validateProject
          (RemoveWallCommand.execute
            { wall := sampleWall, levelIndex := 0, originalIndex := 0 }
            sampleProject) := by
  have hmk : RemoveWallCommand.mk? "w1" sampleProject 0 =
      some { wall := sampleWall, levelIndex := 0, originalIndex := 0 } := by
    decide
  have h := remove_wall_keeps_openings_and_flags_danglers sampleProject "w1" 0
    _ hmk
  refine ⟨hmk, h.1 sampleLevel rfl, ?_⟩
  refine h.2.2
    { id := "l1", name := "Ground Floor", walls := [],
      openings := [sampleDoor] } (by decide) sampleDoor (by decide) (by decide)

/-- Points round-trip unconditionally. -/
theorem parsePoint_toJson (pt : Point) : parsePoint pt.toJson = some pt := by
  simp [parsePoint, Point.toJson, jGet, parseJInt, Rat.den_intCast,
    Rat.num_intCast]

/-- An integral JSON number inside the range parses back. -/
theorem parseJIntRange_intCast (lo hi n : Int) (h1 : lo ≤ n) (h2 : n ≤ hi) :
    parseJIntRange lo hi (.num (n : Rat)) = some n := by
  simp [parseJIntRange, parseJInt, Rat.den_intCast, Rat.num_intCast, h1, h2]

/-- An integral JSON number above the bound parses back. -/
theorem parseJIntMin_intCast (lo n : Int) (h1 : lo ≤ n) :
    parseJIntMin lo (.num (n : Rat)) = some n := by
  simp [parseJIntMin, parseJInt, Rat.den_intCast, Rat.num_intCast, h1]

/-- Schema-conformant walls round-trip. -/
theorem parseWall_toJson (w : Wall) (hok : wallOk w) :
    parseWall w.toJson = some w := by
  rcases hok with ⟨hid, ht1, ht2, hh1, hh2⟩
  simp [parseWall, Wall.toJson, jGet, parseJId, hid, parsePoint_toJson,
    parseJIntRange_intCast _ _ _ ht1 ht2, parseJIntRange_intCast _ _ _ hh1 hh2]

/-- Schema-conformant openings round-trip. -/
theorem parseOpening_toJson (o : Opening) (hok : openingOk o) :
    parseOpening o.toJson = some o := by
  rcases hok with ⟨hid, hoff, hw1, hw2, hh1, hh2, hs1, hs2⟩
  cases hty : o.type <;>
    (simp [parseOpening, Opening.toJson, jGet, parseJId, hid, hty,
      OpeningType.toStr, parseOpeningType, parseJIntMin_intCast _ _ hoff,
      parseJIntRange_intCast _ _ _ hw1 hw2,
      parseJIntRange_intCast _ _ _ hh1 hh2,
      parseJIntRange_intCast _ _ _ hs1 hs2]
     rw [← hty])

/-- Elementwise round-trip lifts to arrays. -/
theorem parseJArr_map {α : Type} (f : Json → Option α) (g : α → Json)
    (xs : List α) (h : ∀ x ∈ xs, f (g x) = some x) :
    parseJArr f (xs.map g) = some xs := by
  induction xs with
  | nil => rfl
  | cons x rest ih =>
    rw [List.map_cons, parseJArr]
    rw [h x (by simp), ih (fun y hy => h y (by simp [hy]))]
    rfl

/-- Schema-conformant levels round-trip. -/
theorem parseLevel_toJson (l : Level) (hok : levelOk l) :
    parseLevel l.toJson = some l := by
  rcases hok with ⟨hid, hname, hwalls, hopenings⟩
  simp [parseLevel, Level.toJson, jGet, parseJId, hid, hname,
    parseJArr_map parseWall Wall.toJson l.walls
      (fun w hw => parseWall_toJson w (hwalls w hw)),
    parseJArr_map parseOpening Opening.toJson l.openings
      (fun o ho => parseOpening_toJson o (hopenings o ho))]

/-- C3 (amended): a project that passes `validateProject` *and* conforms
to the schema shapes (id patterns, name nonempty, units "mm", numeric
ranges, valid or absent timestamps) round-trips through
JSON-serialisation and `parseProject`; `validateProject p = []` alone
does not imply this (see the counterexample). -/
theorem schema_conformant_project_roundtrips (p : Project)
    (hok : projectOk p) (hval : validateProject p = []) :
    parseProject p.toJson = some p := by
  rcases hok with ⟨hid, hname, hunits, hlen, hlevels, hcre, hupd⟩
  obtain ⟨pid0, pname0, punits0, plevels0, pcre0, pupd0⟩ := p
  subst hunits
  have hlevelsParse :
      parseJArr parseLevel (plevels0.map Level.toJson) = some plevels0 :=
    parseJArr_map parseLevel Level.toJson plevels0
      (fun l hl => parseLevel_toJson l (hlevels l hl))
  cases pcre0 with
  | none =>
    cases pupd0 with
    | none =>
      simp [parseProject, Project.toJson, jGet, parseJId, hid, hname,
        hlevelsParse, hlen, parseTimestamp]
    | some su =>
      have hsu : isDatetime su = true := hupd
      simp [parseProject, Project.toJson, jGet, parseJId, hid, hname,
        hlevelsParse, hlen, parseTimestamp, hsu]
  | some sc =>
    have hsc : isDatetime sc = true := hcre
    cases pupd0 with
    | none =>
      simp [parseProject, Project.toJson, jGet, parseJId, hid, hname,
        hlevelsParse, hlen, parseTimestamp, hsc]
    | some su =>
      have hsu : isDatetime su = true := hupd
      simp [parseProject, Project.toJson, jGet, parseJId, hid, hname,
        hlevelsParse, hlen, parseTimestamp, hsc, hsu]

/-- C3 (counterexample): `badIdProject` (project id "x1") passes
`validateProject` with the empty issue list, yet parsing its JSON
serialisation fails — `validateProject` never checks the schema-level
id patterns, so `validateProject p = []` alone does not guarantee the
round trip. -/
theorem validated_project_fails_parse_counterexample :
    validateProject badIdProject = [] ∧
      parseProject badIdProject.toJson = none := by
  refine ⟨by decide, by decide⟩

/-- C3 (witness): `sampleProject` is schema-conformant, validates
cleanly, and round-trips. -/
theorem schema_conformant_project_roundtrips_witness :
    projectOk sampleProject ∧ validateProject sampleProject = [] ∧
      parseProject sampleProject.toJson = some sampleProject := by
  have hwall : wallOk sampleWall :=
    ⟨by decide, by decide, by decide, by decide, by decide⟩
  have hopen : openingOk sampleDoor :=
    ⟨by decide, by decide, by decide, by decide, by decide, by decide,
      by decide, by decide⟩
  have hlevel : levelOk sampleLevel :=
    ⟨by decide, by decide,
      fun w hw => by
        rw [show w = sampleWall by simpa [sampleLevel] using hw]
        exact hwall,
      fun o ho => by
        rw [show o = sampleDoor by simpa [sampleLevel] using ho]
        exact hopen⟩
  have hok : projectOk sampleProject :=
    ⟨by decide, by decide, rfl, by decide,
      fun l hl => by
        rw [show l = sampleLevel by simpa [sampleProject] using hl]
        exact hlevel,
      trivial, trivial⟩
  exact ⟨hok, by decide,
    schema_conformant_project_roundtrips sampleProject hok (by decide)⟩

/-- `execute` preserves the history invariant. -/
theorem histInv_execute (c : Cmd) (s : CommandHistory × Project)
    (h : histInv s.1) : histInv (CommandHistory.execute c s).1 := by
  obtain ⟨h1, h2, h3⟩ := h
  simp only [CommandHistory.execute]
  split
  next hgt =>
    refine ⟨?_, ?_, ?_⟩ <;>
      dsimp only <;>
      simp only [List.length_drop, List.length_append, List.length_take,
        List.length_cons, List.length_nil] at hgt ⊢ <;>
      omega
  next hle =>
    refine ⟨?_, ?_, ?_⟩ <;>
      dsimp only <;>
      simp only [not_lt, List.length_append, List.length_take,
        List.length_cons, List.length_nil] at hle ⊢ <;>
      omega

/-- `undo` preserves the history invariant. -/
theorem histInv_undoStep (s : CommandHistory × Project) (h : histInv s.1) :
    histInv (CommandHistory.undoStep s).1.1 := by
  obtain ⟨h1, h2, h3⟩ := h
  simp only [CommandHistory.undoStep]
  split
  next => exact ⟨h1, h2, h3⟩
  next hge =>
    refine ⟨?_, ?_, ?_⟩ <;> dsimp only <;> omega

/-- `redo` preserves the history invariant. -/
theorem histInv_redoStep (s : CommandHistory × Project) (h : histInv s.1) :
    histInv (CommandHistory.redoStep s).1.1 := by
  obtain ⟨h1, h2, h3⟩ := h
  simp only [CommandHistory.redoStep]
  split
  next => exact ⟨h1, h2, h3⟩
  next hlt =>
    simp only [not_le] at hlt
    refine ⟨?_, ?_, ?_⟩ <;> dsimp only <;> omega

/-- `clear` re-establishes the history invariant. -/
theorem histInv_clearHistory (s : CommandHistory × Project) :
    histInv (CommandHistory.clearHistory s).1 := by
  refine ⟨?_, ?_, ?_⟩ <;> simp [CommandHistory.clearHistory]

/-- Any call sequence preserves the invariant. -/
theorem histInv_runHistOps (ops : List HistOp) (s : CommandHistory × Project)
    (h : histInv s.1) : histInv (runHistOps ops s).1 := by
  induction ops generalizing s with
  | nil => exact h
  | cons op rest ih =>
    rw [runHistOps, List.foldl_cons]
    refine ih _ ?_
    cases op with
    | exec c => exact histInv_execute c s h
    | undo => exact histInv_undoStep s h
    | redo => exact histInv_redoStep s h
    | clear => exact histInv_clearHistory s

/-- The last slot of a snoc, read with a default. -/
theorem getD_append_singleton (l : List α) (c d : α) :
    (l ++ [c]).getD l.length d = c := by
  induction l with
  | nil => rfl
  | cons x xs ih => simp [ih]

/-- C6: starting from a fresh history of maximum size m, every sequence
of execute/undo/redo/clear calls keeps the history length at most m and
the cursor between -1 and length-1; and an execute on a full history
whose cursor sits on the last entry evicts the oldest command, keeps
the length at m, and leaves the cursor on the newly appended command. -/
theorem history_invariant_and_eviction :
    (∀ (m : Nat) (p0 : Project) (ops : List HistOp),
      histInv (runHistOps ops (CommandHistory.fresh m, p0)).1) ∧
      (∀ (h : CommandHistory) (p : Project) (c : Cmd),
        histInv h → 1 ≤ h.maxSize → h.history.length = h.maxSize →
        h.currentIndex = (h.maxSize : Int) - 1 →
        (CommandHistory.execute c (h, p)).1.history =
            h.history.drop 1 ++ [c] ∧
          (CommandHistory.execute c (h, p)).1.history.length = h.maxSize ∧
          (CommandHistory.execute c (h, p)).1.currentIndex =
            (h.maxSize : Int) - 1 ∧
          (CommandHistory.execute c (h, p)).1.history.getD
              ((CommandHistory.execute c (h, p)).1.currentIndex).toNat idCmd =
            c) := by
  constructor
  · intro m p0 ops
    refine histInv_runHistOps ops _ ?_
    exact ⟨by simp [CommandHistory.fresh], by simp [CommandHistory.fresh],
      by simp [CommandHistory.fresh]⟩
  · intro h p c hinv hm hlen hidx
    have htake : h.history.take (h.currentIndex + 1).toNat = h.history := by
      refine List.take_of_length_le ?_
      rw [hlen]
      omega
    have hcond : (CommandHistory.execute c (h, p)).1 =
        { h with history := (h.history ++ [c]).drop 1 } := by
      simp only [CommandHistory.execute, htake]
      rw [if_pos]
      simp [hlen]
    have hdrop : (h.history ++ [c]).drop 1 = h.history.drop 1 ++ [c] := by
      refine List.drop_append_of_le_length ?_
      omega
    refine ⟨?_, ?_, ?_, ?_⟩
    · rw [hcond, hdrop]
    · rw [hcond]
      simp [hlen]
    · rw [hcond]
      exact hidx
    · rw [hcond, hdrop]
      have hlen1 : (h.history.drop 1).length = h.maxSize - 1 := by
        simp [hlen]
      have : h.currentIndex.toNat = (h.history.drop 1).length := by
        rw [hlen1, hidx]
        omega
      simp only [this]
      exact getD_append_singleton _ _ _

/-- C6 (witness): a concrete run at maximum size 1 and a concrete full
history of size 1. -/
theorem history_invariant_and_eviction_witness :
    histInv (runHistOps [HistOp.exec idCmd, HistOp.undo, HistOp.redo]
        (CommandHistory.fresh 1, sampleProject)).1 ∧
      ((CommandHistory.execute idCmd
            (⟨[idCmd], 0, 1⟩, sampleProject)).1.history =
          ([idCmd] : List Cmd).drop 1 ++ [idCmd] ∧
        (CommandHistory.execute idCmd
            (⟨[idCmd], 0, 1⟩, sampleProject)).1.history.length = 1 ∧
        (CommandHistory.execute idCmd
            (⟨[idCmd], 0, 1⟩, sampleProject)).1.currentIndex =
          ((1 : Nat) : Int) - 1 ∧
        (CommandHistory.execute idCmd
            (⟨[idCmd], 0, 1⟩, sampleProject)).1.history.getD
            ((CommandHistory.execute idCmd
              (⟨[idCmd], 0, 1⟩, sampleProject)).1.currentIndex).toNat idCmd =
          idCmd) := by
  refine ⟨history_invariant_and_eviction.1 1 sampleProject _, ?_⟩
  exact history_invariant_and_eviction.2 ⟨[idCmd], 0, 1⟩ sampleProject idCmd
    ⟨by decide, by decide, by decide⟩ (by decide) (by decide) (by decide)

/-- Unfolding one step of the execution trace. -/
theorem execTrace_succ (cs : List Cmd) (p0 : Project) (i : Nat)
    (hi : i < cs.length) :
    execTrace cs p0 (i + 1) =
      (cs.get ⟨i, hi⟩).exec (execTrace cs p0 i) := by
  rw [execTrace, execTrace, List.take_succ, List.foldl_append]
  rw [List.getElem?_eq_getElem hi]
  rfl

/-- The whole trace is the fold over all commands. -/
theorem execTrace_length (cs : List Cmd) (p0 : Project) :
    execTrace cs p0 cs.length = cs.foldl (fun q c => c.exec q) p0 := by
  rw [execTrace, List.take_length]

/-- Iterating `undo` peels from either end. -/
theorem undoN_succ (n : Nat) (s : CommandHistory × Project) :
    undoN (n + 1) s = (CommandHistory.undoStep (undoN n s)).1 := by
  induction n generalizing s with
  | zero => rfl
  | succ n ih =>
    rw [undoN]
    rw [ih (CommandHistory.undoStep s).1]
    rfl

/-- Iterating `redo` peels from either end. -/
theorem redoN_succ (n : Nat) (s : CommandHistory × Project) :
    redoN (n + 1) s = (CommandHistory.redoStep (redoN n s)).1 := by
  induction n generalizing s with
  | zero => rfl
  | succ n ih =>
    rw [redoN]
    rw [ih (CommandHistory.redoStep s).1]
    rfl

/-- `undoN` splits over sums. -/
theorem undoN_add (a b : Nat) (s : CommandHistory × Project) :
    undoN (a + b) s = undoN a (undoN b s) := by
  induction b generalizing s with
  | zero => rfl
  | succ b ih =>
    rw [show a + (b + 1) = (a + b) + 1 by omega, undoN, ih]
    rfl

/-- `redoN` splits over sums. -/
theorem redoN_add (a b : Nat) (s : CommandHistory × Project) :
    redoN (a + b) s = redoN a (redoN b s) := by
  induction b generalizing s with
  | zero => rfl
  | succ b ih =>
    rw [show a + (b + 1) = (a + b) + 1 by omega, redoN, ih]
    rfl

/-- With the cursor below zero, `undo` does nothing. -/
theorem undoN_of_neg (n : Nat) (s : CommandHistory × Project)
    (h : s.1.currentIndex < 0) : undoN n s = s := by
  have hstep : (CommandHistory.undoStep s).1 = s := by
    rw [CommandHistory.undoStep, if_pos h]
  induction n with
  | zero => rfl
  | succ n ih =>
    rw [undoN_succ, ih, hstep]

/-- With the cursor at (or beyond) the last entry, `redo` does nothing. -/
theorem redoN_of_atEnd (n : Nat) (s : CommandHistory × Project)
    (h : (s.1.history.length : Int) - 1 ≤ s.1.currentIndex) :
    redoN n s = s := by
  have hstep : (CommandHistory.redoStep s).1 = s := by
    rw [CommandHistory.redoStep, if_pos h]
  induction n with
  | zero => rfl
  | succ n ih =>
    rw [redoN_succ, ih, hstep]

/-- Running `execute` over a command list from an at-head state: the
history keeps the last `min (total) m` commands, the cursor stays at
the head, and the project is the fold of the executes. -/
theorem execAll_from_atHead (cs : List Cmd) (hs : List Cmd) (m : Nat)
    (p : Project) (hle : hs.length ≤ m) :
    execAll cs (⟨hs, (hs.length : Int) - 1, m⟩, p) =
      (⟨(hs ++ cs).drop
          (hs.length + cs.length - min (hs.length + cs.length) m),
        (min (hs.length + cs.length) m : Int) - 1, m⟩,
       cs.foldl (fun q c => c.exec q) p) := by
  induction cs generalizing hs p with
  | nil =>
    have hmin : min hs.length m = hs.length := by omega
    simp [execAll, hmin, hle]
  | cons c cs' ih =>
    have htake : hs.take ((hs.length : Int) - 1 + 1).toNat = hs := by
      have h1 : ((hs.length : Int) - 1 + 1).toNat = hs.length := by omega
      rw [h1, List.take_length]
    rw [show execAll (c :: cs') (⟨hs, (hs.length : Int) - 1, m⟩, p) =
        execAll cs'
          (CommandHistory.execute c (⟨hs, (hs.length : Int) - 1, m⟩, p))
      from rfl]
    by_cases hfull : m < hs.length + 1
    · have hm : hs.length = m := by omega
      have hexec :
          CommandHistory.execute c (⟨hs, (hs.length : Int) - 1, m⟩, p) =
            (⟨(hs ++ [c]).drop 1, (hs.length : Int) - 1, m⟩, c.exec p) := by
        simp only [CommandHistory.execute, htake]
        rw [if_pos (by simpa using hfull)]
      rw [hexec]
      have hlen2 : ((hs ++ [c]).drop 1).length = hs.length := by simp
      rw [show ((hs.length : Int) - 1) =
          ((((hs ++ [c]).drop 1).length : Int) - 1) by rw [hlen2]]
      rw [ih ((hs ++ [c]).drop 1) (c.exec p) (by rw [hlen2]; omega)]
      simp only [Prod.mk.injEq, CommandHistory.mk.injEq, List.foldl_cons,
        and_true, true_and]
      constructor
      · rw [hlen2]
        rw [← List.drop_append_of_le_length
          (show 1 ≤ (hs ++ [c]).length by simp)]
        rw [List.drop_drop]
        rw [show (hs ++ [c]) ++ cs' = hs ++ c :: cs' by simp]
        congr 1
        simp only [List.length_cons]
        omega
      · rw [hlen2]
        simp only [List.length_cons]
        omega
    · have hexec :
          CommandHistory.execute c (⟨hs, (hs.length : Int) - 1, m⟩, p) =
            (⟨hs ++ [c], (hs.length : Int) - 1 + 1, m⟩, c.exec p) := by
        simp only [CommandHistory.execute, htake]
        rw [if_neg (by simpa using hfull)]
      rw [hexec]
      rw [show ((hs.length : Int) - 1 + 1) =
          (((hs ++ [c]).length : Int) - 1) by simp]
      rw [ih (hs ++ [c]) (c.exec p) (by simp; omega)]
      simp only [Prod.mk.injEq, CommandHistory.mk.injEq, List.foldl_cons,
        and_true, true_and]
      constructor
      · rw [show (hs ++ [c]) ++ cs' = hs ++ c :: cs' by simp]
        congr 1
        simp only [List.length_append, List.length_cons, List.length_nil]
        omega
      · simp only [List.length_append, List.length_cons, List.length_nil]
        omega

/-- `getD` through a `drop`. -/
theorem getD_drop (l : List α) (a b : Nat) (d : α) :
    (l.drop a).getD b d = l.getD (a + b) d := by
  induction l generalizing a with
  | nil => simp [List.getD]
  | cons x xs ih =>
    cases a with
    | zero => simp
    | succ n =>
      rw [List.drop_succ_cons, ih n,
        show n + 1 + b = (n + b) + 1 by omega]
      simp [List.getD]

/-- `getD` at a present index. -/
theorem getD_eq_get (l : List α) (i : Nat) (d : α) (h : i < l.length) :
    l.getD i d = l.get ⟨i, h⟩ := by
  induction l generalizing i with
  | nil => simp at h
  | cons x xs ih =>
    cases i with
    | zero => rfl
    | succ n =>
      have := ih n (by simpa using h)
      simpa using this

/-- The undo phase: from the post-execution state, each undo steps the
project one state back along the trace, until the cursor hits -1. -/
theorem undoN_phase (cs : List Cmd) (p0 : Project) (m : Nat)
    (H : ∀ i (hi : i < cs.length),
      (cs.get ⟨i, hi⟩).undo (execTrace cs p0 (i + 1)) = execTrace cs p0 i)
    (j : Nat) (hj : j ≤ min cs.length m) :
    undoN j
        (⟨cs.drop (cs.length - min cs.length m),
          (min cs.length m : Int) - 1, m⟩,
         execTrace cs p0 cs.length) =
      (⟨cs.drop (cs.length - min cs.length m),
        (min cs.length m : Int) - 1 - j, m⟩,
       execTrace cs p0 (cs.length - j)) := by
  induction j with
  | zero => simp [undoN]
  | succ j ih =>
    have hj' : j ≤ min cs.length m := by omega
    rw [undoN_succ, ih hj']
    have hlt : ¬((min cs.length m : Int) - 1 - (j : Int) < 0) := by omega
    have hi0 : cs.length - 1 - j < cs.length := by omega
    have helt :
        (cs.drop (cs.length - min cs.length m)).getD
            ((min cs.length m : Int) - 1 - (j : Int)).toNat idCmd =
          cs.get ⟨cs.length - 1 - j, hi0⟩ := by
      rw [show ((min cs.length m : Int) - 1 - (j : Int)).toNat =
          min cs.length m - 1 - j by omega]
      rw [getD_drop]
      rw [show cs.length - min cs.length m + (min cs.length m - 1 - j) =
          cs.length - 1 - j by omega]
      exact getD_eq_get cs (cs.length - 1 - j) idCmd hi0
    simp only [CommandHistory.undoStep]
    rw [if_neg hlt]
    simp only
    rw [helt]
    have happly : (cs.get ⟨cs.length - 1 - j, hi0⟩).undo
        (execTrace cs p0 (cs.length - j)) =
        execTrace cs p0 (cs.length - (j + 1)) := by
      have h1 : cs.length - j = (cs.length - 1 - j) + 1 := by omega
      have h2 : cs.length - (j + 1) = cs.length - 1 - j := by omega
      rw [h1, h2]
      exact H (cs.length - 1 - j) hi0
    rw [happly]
    rw [show (min cs.length m : Int) - 1 - (j : Int) - 1 =
        (min cs.length m : Int) - 1 - ((j : Nat) + 1 : Nat) by push_cast; omega]

/-- The redo phase: from the fully-undone state, each redo re-executes
the corresponding command, walking the trace forward again. -/
theorem redoN_phase (cs : List Cmd) (p0 : Project) (m : Nat)
    (j : Nat) (hj : j ≤ min cs.length m) :
    redoN j
        (⟨cs.drop (cs.length - min cs.length m), -1, m⟩,
         execTrace cs p0 (cs.length - min cs.length m)) =
      (⟨cs.drop (cs.length - min cs.length m), (j : Int) - 1, m⟩,
       execTrace cs p0 (cs.length - min cs.length m + j)) := by
  induction j with
  | zero => simp [redoN]
  | succ j ih =>
    have hj' : j ≤ min cs.length m := by omega
    rw [redoN_succ, ih hj']
    have hlen : (cs.drop (cs.length - min cs.length m)).length =
        min cs.length m := by
      simp
      omega
    have hnle : ¬(((cs.drop (cs.length - min cs.length m)).length : Int) - 1 ≤
        (j : Int) - 1) := by
      rw [hlen]
      omega
    have hi0 : cs.length - min cs.length m + j < cs.length := by omega
    have helt :
        (cs.drop (cs.length - min cs.length m)).getD
            ((j : Int) - 1 + 1).toNat idCmd =
          cs.get ⟨cs.length - min cs.length m + j, hi0⟩ := by
      rw [show ((j : Int) - 1 + 1).toNat = j by omega]
      rw [getD_drop]
      exact getD_eq_get cs _ idCmd hi0
    simp only [CommandHistory.redoStep]
    rw [if_neg hnle]
    simp only
    rw [helt]
    simp only [Prod.mk.injEq, CommandHistory.mk.injEq, true_and, and_true]
    constructor
    · push_cast
      omega
    · rw [show cs.length - min cs.length m + (j + 1) =
          (cs.length - min cs.length m + j) + 1 by omega]
      rw [execTrace_succ cs p0 (cs.length - min cs.length m + j) hi0]

/-- C1 (amended): for a fresh history of any maximum size and any
command sequence in which each command's `undo`, applied to the state
right after that command's `execute`, restores the state from right
before it, calling `undo()` N times and then `redo()` N times brings
the Project back to its state after the original N executions (redo
re-runs `execute`, per `BaseCommand`). -/
theorem undo_redo_roundtrip_under_trajectory_inverses (cs : List Cmd)
    (m : Nat) (p0 : Project)
    (H : ∀ i (hi : i < cs.length),
      (cs.get ⟨i, hi⟩).undo (execTrace cs p0 (i + 1)) = execTrace cs p0 i) :
    (redoN cs.length (undoN cs.length
        (execAll cs (CommandHistory.fresh m, p0)))).2 =
      (execAll cs (CommandHistory.fresh m, p0)).2 := by
  rw [show (CommandHistory.fresh m, p0) =
      ((⟨[], (([] : List Cmd).length : Int) - 1, m⟩ : CommandHistory), p0)
    from rfl]
  rw [execAll_from_atHead cs [] m p0 (by simp)]
  simp only [List.nil_append, List.length_nil, Nat.cast_zero, Nat.zero_add,
    zero_add]
  rw [← execTrace_length]
  have hc1 := congrArg undoN
    (show cs.length = (cs.length - min cs.length m) + min cs.length m by
      omega)
  rw [hc1, undoN_add]
  rw [undoN_phase cs p0 m H (min cs.length m) (le_refl _)]
  rw [undoN_of_neg _ _ (by dsimp only; omega)]
  rw [show ((min cs.length m : Int) - 1 -
      ((min cs.length m : Nat) : Int) : Int) = -1 by omega]
  have hc2 := congrArg redoN
    (show cs.length = (cs.length - min cs.length m) + min cs.length m by
      omega)
  rw [hc2, redoN_add]
  rw [redoN_phase cs p0 m (min cs.length m) (le_refl _)]
  rw [redoN_of_atEnd _ _ (by
    dsimp only
    simp only [List.length_drop]
    omega)]
  dsimp only
  rw [show cs.length - min cs.length m + min cs.length m = cs.length by
    omega]

/-- C1 (counterexample): adding an opening whose id duplicates an
existing opening breaks the round trip. `AddOpeningCommand.undo`
removes the FIRST opening with the matching id (`removeFirst`), which
is the pre-existing door `o1`, not the one that was pushed; the redo
then pushes the duplicate again, ending with two copies of `dupDoor`
instead of the original `[sampleDoor, dupDoor]`. -/
theorem undo_redo_roundtrip_counterexample :
    (redoN 1 (undoN 1 (execAll [AddOpeningCommand.toCmd ⟨dupDoor, 0⟩]
        (CommandHistory.fresh 50, sampleProject)))).2 ≠
      (execAll [AddOpeningCommand.toCmd ⟨dupDoor, 0⟩]
        (CommandHistory.fresh 50, sampleProject)).2 := by
  decide

/-- Witness for C1 at a concrete input: for the two commands of
`c1Cmds` on `sampleProject`, the trajectory-inverse hypothesis holds by
evaluation, and two undos followed by two redos restore the
post-execution project. -/
theorem undo_redo_roundtrip_under_trajectory_inverses_witness :
    (∀ i (hi : i < c1Cmds.length),
      (c1Cmds.get ⟨i, hi⟩).undo (execTrace c1Cmds sampleProject (i + 1)) =
        execTrace c1Cmds sampleProject i) ∧
    (redoN c1Cmds.length (undoN c1Cmds.length
        (execAll c1Cmds (CommandHistory.fresh 50, sampleProject)))).2 =
      (execAll c1Cmds (CommandHistory.fresh 50, sampleProject)).2 :=
  ⟨by decide,
   undo_redo_roundtrip_under_trajectory_inverses c1Cmds 50 sampleProject
     (by decide)⟩
